import Mathlib

/-!
# q-io `socket_event` and q `exception_errno`: a shallow embedding

Two source files are embedded.

* `libs/q-io/src/socket_event.cpp`: every member function of `socket_event` becomes a pure
  function from the object's `pimpl` to the new `pimpl` and the list of calls it makes into
  the outside world (`Effect`): the OS, libevent, the heap of `weak_socket_event_ptr`
  callback contexts and the subclass hooks.  The two callbacks `fn_read` / `fn_write`
  become functions of the event mask and of the result of `weak_ptr::lock`.
* `libs/q/src/exception_errno.cpp`: the errno registry, with `std::unordered_map` as an
  association list with unique keys and exceptions as an `Except` error channel.

A second layer (`World`) interprets the effects over a small model of libevent's event
life cycle, so that statements about what the reactor delivers can be made.
-/

namespace SocketEvent

/-! ## Data model (`socket_event::pimpl`, lines 23-38) -/

/-- A `socket_t`: the numeric value of an OS socket handle. -/
abbrev socket_t := Int

/-- The address of a libevent `::event`; `nullptr` is `none` in an `Option EventPtr`. -/
abbrev EventPtr := Nat

/-- The address of a heap allocated `weak_socket_event_ptr` callback context. -/
abbrev HandlePtr := Nat

/-- Constants that `socket_event.cpp` uses and that are declared outside `src/`
(`invalid_socket::value` and `LIBQ_EV_CLOSE` in q-io's headers, `EV_READ` and `EV_WRITE`
in libevent's).  The embedding takes them as a parameter. -/
structure Consts where
  invalid_socket : socket_t
  EV_READ : Nat
  EV_WRITE : Nat
  LIBQ_EV_CLOSE : Nat
deriving DecidableEq, Repr

/-- Sample values for concrete evaluations: libevent's `EV_READ = 0x02`, `EV_WRITE = 0x04`,
a closed marker bit disjoint from both, and `-1` as the invalid socket. -/
def sampleConsts : Consts :=
  { invalid_socket := -1, EV_READ := 2, EV_WRITE := 4, LIBQ_EV_CLOSE := 4096 }

/-- The state `socket_event::pimpl`: `fd_`, `ev_read_`, `ev_write_`, `closed_`. -/
structure pimpl where
  fd_ : socket_t
  ev_read_ : Option EventPtr
  ev_write_ : Option EventPtr
  closed_ : Bool
deriving DecidableEq, Repr

/-- The two directions; also names which of the two callbacks an event carries. -/
inductive Dir where
  | read
  | write
deriving DecidableEq, Repr

/-- A call that leaves the object: to the OS, to libevent, to the heap of callback
contexts, or into a subclass hook.  Pointer arguments are `Option`s, as a C pointer may
be null. -/
inductive Effect where
  /-- The call `EVUTIL_CLOSESOCKET( fd )`. -/
  | closesocket (fd : socket_t)
  /-- The allocation of a `weak_socket_event_ptr` holding `self`, at address `p`. -/
  | new_weak (p : HandlePtr)
  /-- The deletion `delete p` of a `weak_socket_event_ptr`. -/
  | delete_weak (p : HandlePtr)
  /-- The call `::event_new( base, fd, events, cb, arg )`, which returned `result`. -/
  | event_new (fd : socket_t) (events : Nat) (cb : Dir) (arg : HandlePtr)
      (result : Option EventPtr)
  /-- The call `::event_add( ev, nullptr )`. -/
  | event_add (ev : Option EventPtr)
  /-- The call `::event_del( ev )`. -/
  | event_del (ev : Option EventPtr)
  /-- The call `::event_active( ev, res, 0 )`. -/
  | event_active (ev : Option EventPtr) (res : Nat)
  /-- The call `::event_free( ev )`. -/
  | event_free (ev : Option EventPtr)
  /-- The hook call `on_attached( dispatcher )`. -/
  | on_attached (dispatcher : Nat)
  /-- The hook call `self->on_event_read( )`. -/
  | on_event_read
  /-- The hook call `self->on_event_write( )`. -/
  | on_event_write
deriving DecidableEq, Repr

/-! ## Member functions -/

/-- The constructor `socket_event::socket_event( socket_t sock )`, lines 32-43. -/
def construct (sock : socket_t) : pimpl :=
  { fd_ := sock, ev_read_ := none, ev_write_ := none, closed_ := false }

/-- The member function `socket_event::detect_readability`, lines 55-58. -/
def detect_readability (s : pimpl) : pimpl × List Effect :=
  (s, [Effect.event_add s.ev_read_])

/-- The member function `socket_event::detect_writability`, lines 60-63. -/
def detect_writability (s : pimpl) : pimpl × List Effect :=
  (s, [Effect.event_add s.ev_write_])

/-- The member function `socket_event::trigger_read`, lines 65-68. -/
def trigger_read (K : Consts) (s : pimpl) : pimpl × List Effect :=
  (s, [Effect.event_active s.ev_read_ K.EV_READ])

/-- The member function `socket_event::trigger_write`, lines 70-73. -/
def trigger_write (K : Consts) (s : pimpl) : pimpl × List Effect :=
  (s, [Effect.event_active s.ev_write_ K.EV_WRITE])

/-- The member function `socket_event::get_socket`, lines 75-78. -/
def get_socket (s : pimpl) : socket_t :=
  s.fd_

/-- The member function `socket_event::close_socket`, lines 134-155.  `closed_.exchange( true )` stores `true`
and yields the old value; the rest runs only when the old value was `false`. -/
def close_socket (K : Consts) (s : pimpl) : pimpl × List Effect :=
  let was_closed := s.closed_
  let s1 : pimpl := { s with closed_ := true }
  if was_closed then
    (s1, [])
  else
    let t1 : List Effect :=
      if s1.fd_ ≠ K.invalid_socket then [Effect.closesocket s1.fd_] else []
    let t2 : List Effect :=
      if s1.ev_read_ ≠ none then
        [Effect.event_del s1.ev_read_, Effect.event_active s1.ev_read_ K.LIBQ_EV_CLOSE]
      else []
    let t3 : List Effect :=
      if s1.ev_write_ ≠ none then
        [Effect.event_del s1.ev_write_, Effect.event_active s1.ev_write_ K.LIBQ_EV_CLOSE]
      else []
    (s1, t1 ++ t2 ++ t3)

/-- The destructor `socket_event::~socket_event`, lines 45-53. -/
def destroy_socket_event (K : Consts) (s : pimpl) : pimpl × List Effect :=
  let r := close_socket K s
  let s1 := r.1
  let t2 : List Effect := if s1.ev_read_ ≠ none then [Effect.event_free s1.ev_read_] else []
  let t3 : List Effect := if s1.ev_write_ ≠ none then [Effect.event_free s1.ev_write_] else []
  (s1, r.2 ++ t2 ++ t3)

/-- The callback `fn_read` of `sub_attach`, lines 88-102.  `events` is the mask the reactor
passes, `arg` the callback context, `self` whether `socket->lock( )` yielded an object. -/
def fn_read (K : Consts) (events : Nat) (arg : HandlePtr) (self : Bool) : List Effect :=
  if events &&& K.LIBQ_EV_CLOSE ≠ 0 then
    [Effect.delete_weak arg]
  else if self then
    [Effect.on_event_read]
  else
    []

/-- The callback `fn_write` of `sub_attach`, lines 104-118. -/
def fn_write (K : Consts) (events : Nat) (arg : HandlePtr) (self : Bool) : List Effect :=
  if events &&& K.LIBQ_EV_CLOSE ≠ 0 then
    [Effect.delete_weak arg]
  else if self then
    [Effect.on_event_write]
  else
    []

/-- The member function `socket_event::sub_attach`, lines 80-132.  `reader_ptr` and `writer_ptr` are the
addresses the two `new` expressions yield, `new_read` and `new_write` what the two
`::event_new` calls return (`none` when the dispatcher refuses the registration). -/
def sub_attach (K : Consts) (s : pimpl) (dispatcher : Nat) (reader_ptr writer_ptr : HandlePtr)
    (new_read new_write : Option EventPtr) : pimpl × List Effect :=
  let t0 : List Effect := [Effect.new_weak reader_ptr, Effect.new_weak writer_ptr]
  let s1 : pimpl := { s with ev_read_ := new_read }
  let t1 : List Effect := [Effect.event_new s.fd_ K.EV_READ Dir.read reader_ptr new_read]
  let s2 : pimpl := { s1 with ev_write_ := new_write }
  let t2 : List Effect := [Effect.event_new s1.fd_ K.EV_WRITE Dir.write writer_ptr new_write]
  let t3 : List Effect := if s2.ev_write_ = none then [Effect.delete_weak writer_ptr] else []
  let t4 : List Effect := if s2.ev_read_ = none then [Effect.delete_weak reader_ptr] else []
  (s2, t0 ++ t1 ++ t2 ++ t3 ++ t4 ++ [Effect.on_attached dispatcher])

/-! ## Sequences of calls on one object -/

/-- A call of a member function by application code, with what the environment answers
(for `sub_attach`: the two fresh addresses and the two `event_new` results). -/
inductive Call where
  | sub_attach (dispatcher : Nat) (reader_ptr writer_ptr : HandlePtr)
      (new_read new_write : Option EventPtr)
  | detect_readability
  | detect_writability
  | trigger_read
  | trigger_write
  | get_socket
  | close_socket
deriving DecidableEq, Repr

/-- One call: the new state and the effects of the call. -/
def call (K : Consts) (s : pimpl) : Call → pimpl × List Effect
  | Call.sub_attach d rp wp nr nw => sub_attach K s d rp wp nr nw
  | Call.detect_readability => detect_readability s
  | Call.detect_writability => detect_writability s
  | Call.trigger_read => trigger_read K s
  | Call.trigger_write => trigger_write K s
  | Call.get_socket => (s, [])
  | Call.close_socket => close_socket K s

/-- A sequence of calls, left to right: the final state and all effects in order. -/
def calls (K : Consts) (s : pimpl) : List Call → pimpl × List Effect
  | [] => (s, [])
  | c :: cs =>
    let r := call K s c
    let r2 := calls K r.1 cs
    (r2.1, r.2 ++ r2.2)

/-- The calls that are not `sub_attach`. -/
def Call.isAttach : Call → Bool
  | Call.sub_attach _ _ _ _ _ => true
  | _ => false

/-- The result of `n` sequential `close_socket( )` calls. -/
def close_n (K : Consts) (n : Nat) (s : pimpl) : pimpl × List Effect :=
  calls K s (List.replicate n Call.close_socket)

/-! ## What the close protocol is expected to emit -/

/-- The teardown of one registration: nothing when it is absent, otherwise one withdraw
followed by one activation with the closed marker. -/
def teardown (K : Consts) : Option EventPtr → List Effect
  | none => []
  | some e => [Effect.event_del (some e), Effect.event_active (some e) K.LIBQ_EV_CLOSE]

/-- The release of one registration in the destructor: one `event_free` when present. -/
def release : Option EventPtr → List Effect
  | none => []
  | some e => [Effect.event_free (some e)]

/-- Whether an effect is an OS-level close. -/
def Effect.isClose : Effect → Bool
  | Effect.closesocket _ => true
  | _ => false

/-- Whether an effect is a withdraw (`event_del`). -/
def Effect.isDel : Effect → Bool
  | Effect.event_del _ => true
  | _ => false

/-- Whether an effect is an activation (`event_active`), of any mask. -/
def Effect.isActivate : Effect → Bool
  | Effect.event_active _ _ => true
  | _ => false

/-- Whether an effect asks the dispatcher for a new registration (`event_new`). -/
def Effect.isEventNew : Effect → Bool
  | Effect.event_new _ _ _ _ _ => true
  | _ => false

/-- Whether an effect is a call of the `on_attached` hook. -/
def Effect.isOnAttached : Effect → Bool
  | Effect.on_attached _ => true
  | _ => false

/-- Whether an effect is the invocation of `on_event_read` or `on_event_write`. -/
def Effect.isHook : Effect → Bool
  | Effect.on_event_read => true
  | Effect.on_event_write => true
  | _ => false

/-! ## The reactor side: the dispatcher the source calls into

The reactor is libevent, reached through the dispatcher; neither is under `src/`.  The
spec (§4.3) gives its contract as register / withdraw / activate with callbacks run one at
a time; where the spec is silent the model follows libevent's documented behaviour:
`event_add` makes an event pending, `event_del` makes it non-pending and non-active,
`event_active` makes it active with the given result flags (the flags of an event that is
already active are or-ed together), `event_free` first makes the event non-pending and
non-active and then deallocates it, and the callback of an active event runs with the
accumulated flags, a non-persistent event being made non-pending first. -/

/-- Modelled from the spec: a registration held by the dispatcher (§3 Registration, §4.3);
the record is what the protocol can observe of one libevent `struct event`, a type
declared outside `src/`. -/
structure EventRec where
  /-- the `events` argument given to `event_new` -/
  interest : Nat
  /-- which callback `event_new` was given -/
  cb : Dir
  /-- the callback context given to `event_new` -/
  arg : HandlePtr
  /-- added (`event_add`) and waiting for readiness -/
  pending : Bool
  /-- activated: the flags its callback will receive -/
  active : Option Nat
deriving DecidableEq, Repr

/-- One socket event together with the reactor and the heap of callback contexts. -/
structure World where
  /-- the object's `pimpl` -/
  obj : pimpl
  /-- strong references exist: `false` once the destructor has run -/
  alive : Bool
  /-- the events allocated by `event_new` and not yet freed -/
  events : EventPtr → Option EventRec
  /-- the callback contexts allocated by `new` and not yet deleted -/
  live : HandlePtr → Bool
  /-- the next unused address -/
  next : Nat
  /-- undefined behaviour has occurred (null or dangling pointer given to libevent, use
  or deletion of a deleted callback context); nothing is modelled past this point -/
  fault : Bool

/-- The world around a freshly constructed `socket_event( sock )`. -/
def World.init (sock : socket_t) : World :=
  { obj := construct sock, alive := true, events := fun _ => none, live := fun _ => false,
    next := 0, fault := false }

/-- The event at address `e` replaced by `r` (`none`: deallocated). -/
def World.setEvent (w : World) (e : EventPtr) (r : Option EventRec) : World :=
  { w with events := Function.update w.events e r }

/-- The flags of an event after an activation with `res`. -/
def mergeFlags (old : Option Nat) (res : Nat) : Nat :=
  match old with
  | some m => m ||| res
  | none => res

/-- Modelled from the spec: the dispatcher operations register, withdraw and activate of
§4.3 and the release of a registration, which are libevent calls whose code is not under
`src/`.  This is what one effect does to the reactor and to the heap of callback contexts;
a null or dangling pointer given to libevent and a second `delete` are faults. -/
def World.apply (w : World) : Effect → World
  | Effect.closesocket _ => w
  | Effect.new_weak p => { w with live := Function.update w.live p true }
  | Effect.delete_weak p =>
    if w.live p then { w with live := Function.update w.live p false }
    else { w with fault := true }
  | Effect.event_new _ events cb arg (some e) =>
    w.setEvent e
      (some { interest := events, cb := cb, arg := arg, pending := false, active := none })
  | Effect.event_new _ _ _ _ none => w
  | Effect.event_add (some e) =>
    match w.events e with
    | some r => w.setEvent e (some { r with pending := true })
    | none => { w with fault := true }
  | Effect.event_add none => { w with fault := true }
  | Effect.event_del (some e) =>
    match w.events e with
    | some r =>
      w.setEvent e (some { r with pending := false, active := none })
    | none => { w with fault := true }
  | Effect.event_del none => { w with fault := true }
  | Effect.event_active (some e) res =>
    match w.events e with
    | some r =>
      w.setEvent e (some { r with active := some (mergeFlags r.active res) })
    | none => { w with fault := true }
  | Effect.event_active none _ => { w with fault := true }
  | Effect.event_free (some e) =>
    match w.events e with
    | some _ => w.setEvent e none
    | none => { w with fault := true }
  | Effect.event_free none => { w with fault := true }
  | Effect.on_attached _ => w
  | Effect.on_event_read => w
  | Effect.on_event_write => w

/-- The effects of one call applied in order. -/
def World.applyAll (w : World) (t : List Effect) : World :=
  t.foldl World.apply w

/-- The steps of the system: calls by application code, the end of the object's life,
and the two things the reactor does on its own. -/
inductive Op where
  /-- The call of `sub_attach`, the dispatcher granting or refusing each registration. -/
  | attach (dispatcher : Nat) (okRead okWrite : Bool)
  | detect_readability
  | detect_writability
  | trigger_read
  | trigger_write
  | close_socket
  /-- the last strong reference is dropped: `~socket_event` runs -/
  | destroy
  /-- the backend reports readiness for the pending event `e` -/
  | ready (e : EventPtr)
  /-- the reactor runs the callback of the active event `e` -/
  | deliver (e : EventPtr)
deriving DecidableEq, Repr

/-- A member function's result put into the world. -/
def World.commit (w : World) (r : pimpl × List Effect) : World × List Effect :=
  (({ w with obj := r.1 } : World).applyAll r.2, r.2)

/-- One step.  The second component is what the step adds to the trace of effects.  The
member functions and the callbacks are the embedded source.  Modelled from the spec are the
reactor's own two steps (§4.3, §5: the reactor thread fires a registered callback, one at a
time): `ready` activates a pending event with the mask it was registered for, `deliver`
runs the callback of an active event with its accumulated flags and the result of
upgrading its WeakHandle, which is a fault when the WeakHandle was already deleted. -/
def step (K : Consts) (w : World) (o : Op) : World × List Effect :=
  if w.fault then (w, [])
  else
    match o with
    | Op.attach d okR okW =>
      if w.alive then
        ({ w with next := w.next + 4 } : World).commit
          (sub_attach K w.obj d w.next (w.next + 1)
            (if okR then some (w.next + 2) else none)
            (if okW then some (w.next + 3) else none))
      else (w, [])
    | Op.detect_readability =>
      if w.alive then w.commit (detect_readability w.obj) else (w, [])
    | Op.detect_writability =>
      if w.alive then w.commit (detect_writability w.obj) else (w, [])
    | Op.trigger_read =>
      if w.alive then w.commit (trigger_read K w.obj) else (w, [])
    | Op.trigger_write =>
      if w.alive then w.commit (trigger_write K w.obj) else (w, [])
    | Op.close_socket =>
      if w.alive then w.commit (close_socket K w.obj) else (w, [])
    | Op.destroy =>
      if w.alive then ({ w with alive := false } : World).commit (destroy_socket_event K w.obj)
      else (w, [])
    | Op.ready e =>
      match w.events e with
      | some r =>
        if r.pending then
          (w.setEvent e (some { r with active := some (mergeFlags r.active r.interest) }), [])
        else (w, [])
      | none => (w, [])
    | Op.deliver e =>
      match w.events e with
      | some r =>
        match r.active with
        | some m =>
          let w1 : World :=
            w.setEvent e (some { r with pending := false, active := none })
          if w.live r.arg then
            let t := match r.cb with
              | Dir.read => fn_read K m r.arg w.alive
              | Dir.write => fn_write K m r.arg w.alive
            (w1.applyAll t, t)
          else ({ w1 with fault := true }, [])
        | none => (w, [])
      | none => (w, [])

/-- A run: the final world and the whole trace of effects. -/
def run (K : Consts) (w : World) : List Op → World × List Effect
  | [] => (w, [])
  | o :: os =>
    let r := step K w o
    let r2 := run K r.1 os
    (r2.1, r.2 ++ r2.2)

/-- The discipline of the spec's life cycle on a list of steps: `attach` at most once, and
never after a `close_socket`.  The flag says whether an `attach` is still allowed. -/
def attachDiscipline : Bool → List Op → Bool
  | _, [] => true
  | allowed, Op.attach _ _ _ :: os => allowed && attachDiscipline false os
  | _, Op.close_socket :: os => attachDiscipline false os
  | allowed, _ :: os => attachDiscipline allowed os

/-! ## Invariants of runs that keep the attach discipline -/

/-- The flags carry the closed marker, as the callbacks test it. -/
def HasMarker (K : Consts) (flags : Option Nat) : Prop :=
  ∃ m, flags = some m ∧ m &&& K.LIBQ_EV_CLOSE ≠ 0

/-- The reactor holds no event at all. -/
def Empty (w : World) : Prop :=
  ∀ e, w.events e = none

/-- Every event the reactor holds is one of the object's two registrations. -/
def NoOrphan (w : World) : Prop :=
  ∀ e r, w.events e = some r → w.obj.ev_read_ = some e ∨ w.obj.ev_write_ = some e

/-- Once the closed flag is set, an event whose callback context is still allocated is
active with the closed marker. -/
def Marked (K : Consts) (w : World) : Prop :=
  w.obj.closed_ = true →
    ∀ e r, w.events e = some r → w.live r.arg = true → HasMarker K r.active

/-- The invariant of a run: while an `attach` is still allowed the reactor holds no event
and a living object is not closed; afterwards there is no orphan and `Marked` holds.
Nothing is said of a world in which undefined behaviour has occurred. -/
def Inv (K : Consts) (allowed : Bool) (w : World) : Prop :=
  w.fault = true ∨
    (if allowed then Empty w ∧ (w.alive = true → w.obj.closed_ = false)
     else NoOrphan w ∧ Marked K w)

/-- Whether an `attach` is still allowed after the step `o`. -/
def nextAllowed (allowed : Bool) : Op → Bool
  | Op.attach _ _ _ => false
  | Op.close_socket => false
  | _ => allowed

end SocketEvent

namespace Errno

/-! ## `exception_errno.cpp`: the errno registry -/

/-- An exception object in flight: either a default constructed object of one of the
classes `::q::Name` that `exception_errno.hpp` declares (known here by its name), or the
generic `errno_exception` carrying a message. -/
inductive Exc where
  | specific (name : String)
  | errno_exception (msg : String)
deriving DecidableEq, Repr

/-- A `specific_errno_thrower< exception >`, lines 41-53, known by its exception class. -/
structure errno_thrower where
  exception : String
deriving DecidableEq, Repr

/-- The member `specific_errno_thrower::thrower`, lines 45-48: `Q_THROW( exception( ) )`. -/
def errno_thrower.thrower (t : errno_thrower) : Except Exc Unit :=
  throw (Exc.specific t.exception)

/-- The member `specific_errno_thrower::ptr`, lines 49-52: `make_exception_ptr( exception( ) )`. -/
def errno_thrower.ptr (t : errno_thrower) : Exc :=
  Exc.specific t.exception

/-- The struct `errno_map`, lines 55-66: the `unordered_map` as an association list that
`insert` keeps free of repeated keys, and the vector of registered pairs. -/
structure errno_map where
  map : List (Int × errno_thrower)
  pairs : List (Int × errno_thrower)
deriving DecidableEq, Repr

/-- The lookup `std::unordered_map::find`: the entry stored under `key`, if any. -/
def find (map : List (Int × errno_thrower)) (key : Int) : Option errno_thrower :=
  match map with
  | [] => none
  | (k, t) :: rest => if k = key then some t else find rest key

/-- The insertion `std::unordered_map::insert`: adds the pair unless the key is already
present. -/
def insert (map : List (Int × errno_thrower)) (pair : Int × errno_thrower) :
    List (Int × errno_thrower) :=
  match find map pair.1 with
  | some _ => map
  | none => map ++ [pair]

/-- The state right after the constructor `errno_map::errno_map`, lines 103-106: an empty
map and an empty vector (the initializer it registers is `initializer` below). -/
def errno_map.new : errno_map :=
  { map := [], pairs := [] }

/-- The function `register_errno_handler`, lines 74-80: appends to `pairs`; the `int` it
returns is 0. -/
def register_errno_handler (m : errno_map) (errno_ : Int) (thrower : errno_thrower) :
    errno_map × Int :=
  ({ m with pairs := m.pairs ++ [(errno_, thrower)] }, 0)

/-- The static initializers `_init_errno_handler_Name`, lines 85-98, one per declared
exception, run in order. -/
def register_all (m : errno_map) : List (Int × errno_thrower) → errno_map
  | [] => m
  | (e, t) :: rest => register_all (register_errno_handler m e t).1 rest

/-- The internal initializer registered by the constructor, lines 108-113: every pair is
inserted into the map, in the vector's order.  (The moved-from vector is not read again.) -/
def initializer (m : errno_map) : errno_map :=
  { m with map := m.pairs.foldl insert m.map }

/-- The function `q::throw_by_errno`, lines 131-144.  `strerror_r` gives the text the OS call leaves in
`buf`.  A normal return is `Except.ok`, a thrown exception `Except.error`. -/
def throw_by_errno (strerror_r : Int → String) (m : errno_map) (errno_ : Int) :
    Except Exc Unit := do
  match find m.map errno_ with
  | some second => second.thrower
  | none => pure ()
  let buf := strerror_r errno_
  let sstream := "errno " ++ toString errno_ ++ ": " ++ buf
  throw (Exc.errno_exception sstream)

/-- The function `q::get_exception_by_errno`, lines 119-129.  The `exception_ptr` it returns is `some`
of the caught exception; `none` stands for an empty `exception_ptr`. -/
def get_exception_by_errno (strerror_r : Int → String) (m : errno_map) (errno_ : Int) :
    Option Exc :=
  match throw_by_errno strerror_r m errno_ with
  | Except.error x => some x
  | Except.ok _ => none

/-- The first handler registered under `key` in a list of registrations. -/
def first_registered (pairs : List (Int × errno_thrower)) (key : Int) : Option errno_thrower :=
  (pairs.find? (fun p => decide (p.1 = key))).map (fun p => p.2)

/-- The generic exception for a code: `errno_exception` with the message
"errno ", the decimal of the code, ": " and the OS error text. -/
def generic_exception (strerror_r : Int → String) (errno_ : Int) : Exc :=
  Exc.errno_exception ("errno " ++ toString errno_ ++ ": " ++ strerror_r errno_)

end Errno

namespace SocketEvent

/-! ## Lemmas on `close_socket` -/

theorem close_socket_closed (K : Consts) (s : pimpl) (h : s.closed_ = true) :
    close_socket K s = (s, []) := by
  cases s with
  | mk fd r w c =>
    simp only at h
    subst h
    simp [close_socket]

theorem close_socket_open (K : Consts) (s : pimpl) (h : s.closed_ = false) :
    close_socket K s =
      ({ s with closed_ := true },
        (if s.fd_ ≠ K.invalid_socket then [Effect.closesocket s.fd_] else [])
          ++ teardown K s.ev_read_ ++ teardown K s.ev_write_) := by
  cases s with
  | mk fd r w c =>
    simp only at h
    subst h
    cases r <;> cases w <;> simp [close_socket, teardown]

/-! ## The close protocol and the destructor -/

theorem close_n_closed (K : Consts) (n : Nat) (s : pimpl) (h : s.closed_ = true) :
    close_n K n s = (s, []) := by
  induction n with
  | zero => rfl
  | succ k ih =>
    have hstep : close_n K (k + 1) s =
        ((close_n K k (close_socket K s).1).1,
          (close_socket K s).2 ++ (close_n K k (close_socket K s).1).2) := rfl
    rw [hstep, close_socket_closed K s h, ih]
    rfl

theorem close_n_succ (K : Consts) (n : Nat) (s : pimpl) :
    close_n K (n + 1) s = ((close_socket K s).1, (close_socket K s).2) := by
  have hstep : close_n K (n + 1) s =
      ((close_n K n (close_socket K s).1).1,
        (close_socket K s).2 ++ (close_n K n (close_socket K s).1).2) := rfl
  have hc : (close_socket K s).1.closed_ = true := by
    cases s with
    | mk fd r w c => cases c <;> simp [close_socket]
  rw [hstep, close_n_closed K n _ hc]
  simp

theorem teardown_no_close (K : Consts) (e : Option EventPtr) :
    (teardown K e).filter Effect.isClose = [] := by
  cases e <;> simp [teardown, Effect.isClose]

theorem release_no_close (e : Option EventPtr) :
    (release e).filter Effect.isClose = [] := by
  cases e <;> simp [release, Effect.isClose]

/-- C1: `close_socket` is idempotent and exactly-once.  For a socket event with a valid
handle on which no close has taken effect yet, `n ≥ 1` sequential `close_socket( )` calls
emit exactly one OS-level close of the handle followed, for each registration that is
present, by exactly one withdraw and then one activation with the closed marker, and
nothing else; the state afterwards is the old one with the closed flag set; and every call
after the first emits nothing and leaves the state unchanged. -/
theorem C1_close_idempotent_exactly_once (K : Consts) (s : pimpl) (n : Nat)
    (hfd : s.fd_ ≠ K.invalid_socket) (hopen : s.closed_ = false) (hn : 1 ≤ n) :
    (close_n K n s).2
        = [Effect.closesocket s.fd_] ++ teardown K s.ev_read_ ++ teardown K s.ev_write_
      ∧ ((close_n K n s).2.filter Effect.isClose).length = 1
      ∧ (close_n K n s).1 = { s with closed_ := true }
      ∧ ∀ k, 1 ≤ k →
          close_socket K (close_n K k s).1 = ((close_n K k s).1, []) := by
  obtain ⟨m, rfl⟩ : ∃ m, n = m + 1 := ⟨n - 1, by omega⟩
  have hcs := close_socket_open K s hopen
  have htrace : (close_n K (m + 1) s).2
      = [Effect.closesocket s.fd_] ++ teardown K s.ev_read_ ++ teardown K s.ev_write_ := by
    rw [close_n_succ, hcs]
    simp [hfd]
  refine ⟨htrace, ?_, ?_, ?_⟩
  · rw [htrace]
    simp [List.filter_append, teardown_no_close, Effect.isClose]
  · rw [close_n_succ, hcs]
  · intro k hk
    obtain ⟨j, rfl⟩ : ∃ j, k = j + 1 := ⟨k - 1, by omega⟩
    rw [close_n_succ, hcs]
    exact close_socket_closed K _ rfl

/-- Witness for C1: three closes of an attached socket event on fd 7. -/
theorem C1_close_idempotent_exactly_once_witness :
    (close_n sampleConsts 3 ⟨7, some 2, some 3, false⟩).2
        = [Effect.closesocket 7] ++ teardown sampleConsts (some 2) ++ teardown sampleConsts (some 3)
      ∧ ((close_n sampleConsts 3 ⟨7, some 2, some 3, false⟩).2.filter Effect.isClose).length = 1
      ∧ (close_n sampleConsts 3 ⟨7, some 2, some 3, false⟩).1 = ⟨7, some 2, some 3, true⟩
      ∧ ∀ k, 1 ≤ k →
          close_socket sampleConsts (close_n sampleConsts k ⟨7, some 2, some 3, false⟩).1
            = ((close_n sampleConsts k ⟨7, some 2, some 3, false⟩).1, []) :=
  C1_close_idempotent_exactly_once sampleConsts ⟨7, some 2, some 3, false⟩ 3
    (by decide) rfl (by decide)

/-- C9: an invalid socket at close is skipped silently.  For a socket event whose handle is
the invalid-socket value and whose closed flag is false, the first `close_socket( )` emits
no OS-level close (and has no failure channel at all), sets the closed flag, and withdraws
and closed-marker-activates every present registration exactly as it does for a valid
handle, whose trace is the same with the OS-level close in front; `get_socket( )` and both
registrations are the same before and after. -/
theorem C9_invalid_socket_skipped (K : Consts) (s : pimpl)
    (hfd : s.fd_ = K.invalid_socket) (hopen : s.closed_ = false) :
    (close_socket K s).2 = teardown K s.ev_read_ ++ teardown K s.ev_write_
      ∧ (close_socket K s).2.filter Effect.isClose = []
      ∧ (close_socket K s).1.closed_ = true
      ∧ (∀ fd : socket_t, fd ≠ K.invalid_socket →
          (close_socket K { s with fd_ := fd }).2
            = Effect.closesocket fd :: (close_socket K s).2)
      ∧ get_socket (close_socket K s).1 = get_socket s
      ∧ (close_socket K s).1.ev_read_ = s.ev_read_
      ∧ (close_socket K s).1.ev_write_ = s.ev_write_ := by
  have hcs := close_socket_open K s hopen
  have htrace : (close_socket K s).2 = teardown K s.ev_read_ ++ teardown K s.ev_write_ := by
    rw [hcs]; simp [hfd]
  refine ⟨htrace, ?_, ?_, ?_, ?_, ?_, ?_⟩
  · rw [htrace]; simp [List.filter_append, teardown_no_close]
  · rw [hcs]
  · intro fd hv
    rw [htrace, close_socket_open K { s with fd_ := fd } hopen]
    simp [hv]
  · rw [hcs]; rfl
  · rw [hcs]
  · rw [hcs]

/-- Witness for C9: closing an attached socket event whose handle is the invalid value. -/
theorem C9_invalid_socket_skipped_witness :
    (close_socket sampleConsts ⟨-1, some 2, some 3, false⟩).2
        = teardown sampleConsts (some 2) ++ teardown sampleConsts (some 3)
      ∧ (close_socket sampleConsts ⟨-1, some 2, some 3, false⟩).2.filter Effect.isClose = []
      ∧ (close_socket sampleConsts ⟨-1, some 2, some 3, false⟩).1.closed_ = true
      ∧ (∀ fd : socket_t, fd ≠ sampleConsts.invalid_socket →
          (close_socket sampleConsts { (⟨-1, some 2, some 3, false⟩ : pimpl) with fd_ := fd }).2
            = Effect.closesocket fd :: (close_socket sampleConsts ⟨-1, some 2, some 3, false⟩).2)
      ∧ get_socket (close_socket sampleConsts ⟨-1, some 2, some 3, false⟩).1
          = get_socket ⟨-1, some 2, some 3, false⟩
      ∧ (close_socket sampleConsts ⟨-1, some 2, some 3, false⟩).1.ev_read_ = some 2
      ∧ (close_socket sampleConsts ⟨-1, some 2, some 3, false⟩).1.ev_write_ = some 3 :=
  C9_invalid_socket_skipped sampleConsts ⟨-1, some 2, some 3, false⟩ rfl rfl

theorem destroy_eq (K : Consts) (s : pimpl) :
    destroy_socket_event K s
      = ((close_socket K s).1,
          (close_socket K s).2 ++ release s.ev_read_ ++ release s.ev_write_) := by
  cases s with
  | mk fd r w c =>
    cases c <;> cases r <;> cases w <;> simp [destroy_socket_event, close_socket, release]

/-- C8: destruction closes the socket if not already closed and releases any
registrations.  The destructor's trace is the trace of `close_socket( )` followed by one
`event_free` for each registration that is present and none for an absent one; the close
protocol inside it runs with effect exactly when the closed flag was false (with the flag
already set it emits nothing and changes nothing).  Hence for a valid handle whose close has
not taken effect yet, any number `n` of `close_socket( )` calls followed by destruction
emit exactly one OS-level close in total. -/
theorem C8_destructor_closes_and_releases (K : Consts) (s : pimpl) (n : Nat) :
    (destroy_socket_event K s).2
        = (close_socket K s).2 ++ release s.ev_read_ ++ release s.ev_write_
      ∧ (destroy_socket_event K s).1 = (close_socket K s).1
      ∧ (s.closed_ = true →
          destroy_socket_event K s = (s, release s.ev_read_ ++ release s.ev_write_))
      ∧ (s.closed_ = false →
          destroy_socket_event K s
            = ({ s with closed_ := true },
                (if s.fd_ ≠ K.invalid_socket then [Effect.closesocket s.fd_] else [])
                  ++ teardown K s.ev_read_ ++ teardown K s.ev_write_
                  ++ release s.ev_read_ ++ release s.ev_write_))
      ∧ (s.closed_ = false → s.fd_ ≠ K.invalid_socket →
          (((close_n K n s).2 ++ (destroy_socket_event K (close_n K n s).1).2).filter
              Effect.isClose).length = 1) := by
  refine ⟨?_, ?_, ?_, ?_, ?_⟩
  · rw [destroy_eq]
  · rw [destroy_eq]
  · intro h
    rw [destroy_eq, close_socket_closed K s h]
    simp
  · intro h
    rw [destroy_eq, close_socket_open K s h]
  · intro hopen hfd
    cases n with
    | zero =>
      have h0 : close_n K 0 s = (s, []) := rfl
      rw [h0, destroy_eq, close_socket_open K s hopen]
      simp [hfd, List.filter_append, teardown_no_close, release_no_close, Effect.isClose]
    | succ m =>
      rw [close_n_succ, close_socket_open K s hopen, destroy_eq,
        close_socket_closed K _ rfl]
      simp [hfd, List.filter_append, teardown_no_close, release_no_close, Effect.isClose]

/-- Witness for C8: two closes and then destruction of an attached socket event on fd 7
whose write registration is absent. -/
theorem C8_destructor_closes_and_releases_witness :
    (destroy_socket_event sampleConsts ⟨7, some 2, none, false⟩).2
        = [Effect.closesocket 7, Effect.event_del (some 2), Effect.event_active (some 2) 4096,
            Effect.event_free (some 2)]
      ∧ (((close_n sampleConsts 2 ⟨7, some 2, none, false⟩).2
            ++ (destroy_socket_event sampleConsts
                  (close_n sampleConsts 2 ⟨7, some 2, none, false⟩).1).2).filter
              Effect.isClose).length = 1 :=
  ⟨by decide,
    (C8_destructor_closes_and_releases sampleConsts ⟨7, some 2, none, false⟩ 2).2.2.2.2
      rfl (by decide)⟩

/-- C6: the decision table of the two callbacks, for every event mask, context and upgrade
outcome `self`.  (1) When the mask carries the closed marker, the callback deletes its
WeakHandle and invokes no hook, whether or not the upgrade succeeded.  (2) Otherwise, when
the upgrade failed, it does nothing: no hook, no deletion.  (3) Otherwise it invokes the
hook of its own direction exactly once and deletes nothing. -/
theorem C6_dispatch_decision_table (K : Consts) (events : Nat) (arg : HandlePtr)
    (self : Bool) :
    (events &&& K.LIBQ_EV_CLOSE ≠ 0 →
        fn_read K events arg self = [Effect.delete_weak arg]
          ∧ fn_write K events arg self = [Effect.delete_weak arg])
      ∧ (events &&& K.LIBQ_EV_CLOSE = 0 → self = false →
          fn_read K events arg self = [] ∧ fn_write K events arg self = [])
      ∧ (events &&& K.LIBQ_EV_CLOSE = 0 → self = true →
          fn_read K events arg self = [Effect.on_event_read]
            ∧ fn_write K events arg self = [Effect.on_event_write]) := by
  refine ⟨?_, ?_, ?_⟩
  · intro h
    simp [fn_read, fn_write, h]
  · intro h hs
    simp [fn_read, fn_write, h, hs]
  · intro h hs
    simp [fn_read, fn_write, h, hs]

/-- Witness for C6: the three rows of the table at concrete masks (closed marker with a
failed upgrade, a real event with a failed upgrade, a real event with the object alive). -/
theorem C6_dispatch_decision_table_witness :
    fn_read sampleConsts 4098 5 false = [Effect.delete_weak 5]
      ∧ fn_write sampleConsts 4 6 false = []
      ∧ fn_write sampleConsts 4 6 true = [Effect.on_event_write] :=
  ⟨((C6_dispatch_decision_table sampleConsts 4098 5 false).1 (by decide)).1,
    ((C6_dispatch_decision_table sampleConsts 4 6 false).2.1 (by decide) rfl).2,
    ((C6_dispatch_decision_table sampleConsts 4 6 true).2.2 (by decide) rfl).2⟩

/-- C5, evaluated at the failing inputs.  On a socket event that was never attached,
`detect_readability( )` and `detect_writability( )` hand the null registration to
`event_add`; so does `detect_writability( )` after an attach whose write registration the
dispatcher refused. -/
theorem C5_detect_passes_absent_registration :
    (detect_readability (construct 7)).2 = [Effect.event_add none]
      ∧ (detect_writability (construct 7)).2 = [Effect.event_add none]
      ∧ (calls sampleConsts (construct 7)
            [Call.sub_attach 0 0 1 (some 2) none, Call.detect_writability]).2
          = [Effect.new_weak 0, Effect.new_weak 1,
              Effect.event_new 7 2 Dir.read 0 (some 2), Effect.event_new 7 4 Dir.write 1 none,
              Effect.delete_weak 1, Effect.on_attached 0, Effect.event_add none] := by
  refine ⟨rfl, rfl, ?_⟩
  decide

/-! ## Registrations across calls -/

theorem call_noattach_frame (K : Consts) (s : pimpl) (c : Call) (hc : c.isAttach = false) :
    (call K s c).1.ev_read_ = s.ev_read_ ∧ (call K s c).1.ev_write_ = s.ev_write_
      ∧ (call K s c).1.fd_ = s.fd_
      ∧ (s.closed_ = true → (call K s c).1.closed_ = true)
      ∧ ∀ x ∈ (call K s c).2, x.isEventNew = false := by
  cases s with
  | mk fd r w cl =>
    cases c with
    | sub_attach d rp wp nr nw => simp [Call.isAttach] at hc
    | detect_readability =>
      simp [call, detect_readability, Effect.isEventNew]
    | detect_writability =>
      simp [call, detect_writability, Effect.isEventNew]
    | trigger_read =>
      simp [call, trigger_read, Effect.isEventNew]
    | trigger_write =>
      simp [call, trigger_write, Effect.isEventNew]
    | get_socket =>
      simp [call]
    | close_socket =>
      have hall : ((close_socket K ⟨fd, r, w, cl⟩).2.all fun x => !x.isEventNew) = true := by
        cases cl <;> cases r <;> cases w <;>
          by_cases hv : fd = K.invalid_socket <;>
          simp [close_socket, Effect.isEventNew, hv]
      refine ⟨?_, ?_, ?_, ?_, ?_⟩
      · cases cl <;> simp [call, close_socket]
      · cases cl <;> simp [call, close_socket]
      · cases cl <;> simp [call, close_socket]
      · cases cl <;> simp [call, close_socket]
      · intro x hx
        have := List.all_eq_true.mp hall x hx
        simpa using this

theorem calls_noattach_frame (K : Consts) (cs : List Call) :
    ∀ s : pimpl, (∀ c ∈ cs, c.isAttach = false) →
      (calls K s cs).1.ev_read_ = s.ev_read_ ∧ (calls K s cs).1.ev_write_ = s.ev_write_
        ∧ (calls K s cs).1.fd_ = s.fd_ := by
  induction cs with
  | nil => intro s _; exact ⟨rfl, rfl, rfl⟩
  | cons c rest ih =>
    intro s h
    have hc := call_noattach_frame K s c (h c (List.mem_cons_self _ _))
    have hr := ih (call K s c).1 (fun c' hc' => h c' (List.mem_cons_of_mem _ hc'))
    have hstep : (calls K s (c :: rest)).1 = (calls K (call K s c).1 rest).1 := rfl
    rw [hstep]
    exact ⟨hr.1.trans hc.1, hr.2.1.trans hc.2.1, hr.2.2.trans hc.2.2.1⟩

/-- C3, refuted as stated: on a socket event that was closed before being attached (closed
flag true, both registrations absent), `sub_attach` asks the dispatcher for a read
registration and stores it: the read registration goes from absent to present. -/
theorem C3_counterexample_attach_after_close :
    (close_socket sampleConsts (construct 7)).1.closed_ = true
      ∧ (close_socket sampleConsts (construct 7)).1.ev_read_ = none
      ∧ (sub_attach sampleConsts (close_socket sampleConsts (construct 7)).1
            0 0 1 (some 2) (some 3)).1.ev_read_ = some 2
      ∧ Effect.event_new 7 2 Dir.read 0 (some 2)
          ∈ (sub_attach sampleConsts (close_socket sampleConsts (construct 7)).1
              0 0 1 (some 2) (some 3)).2 := by
  decide

/-- C3, amended: on a socket event whose closed flag is true, no member function other
than `sub_attach` (that is `close_socket`, `detect_readability`, `detect_writability`,
`trigger_read`, `trigger_write`, `get_socket`) changes a registration or asks the
dispatcher for a new one, and the closed flag stays true; `sub_attach` does not consult the
closed flag: it emits the same requests as on an open socket event, always asks for a read
and a write registration, and stores what the dispatcher returns. -/
theorem C3_no_registration_after_close_except_attach (K : Consts) (s : pimpl) (c : Call)
    (hclosed : s.closed_ = true) (hc : c.isAttach = false) :
    (call K s c).1.ev_read_ = s.ev_read_
      ∧ (call K s c).1.ev_write_ = s.ev_write_
      ∧ (call K s c).1.closed_ = true
      ∧ (∀ x ∈ (call K s c).2, x.isEventNew = false)
      ∧ ∀ (d : Nat) (rp wp : HandlePtr) (nr nw : Option EventPtr),
          (sub_attach K s d rp wp nr nw).2
              = (sub_attach K { s with closed_ := false } d rp wp nr nw).2
            ∧ Effect.event_new s.fd_ K.EV_READ Dir.read rp nr ∈ (sub_attach K s d rp wp nr nw).2
            ∧ Effect.event_new s.fd_ K.EV_WRITE Dir.write wp nw
                ∈ (sub_attach K s d rp wp nr nw).2
            ∧ (sub_attach K s d rp wp nr nw).1.ev_read_ = nr
            ∧ (sub_attach K s d rp wp nr nw).1.ev_write_ = nw := by
  have h := call_noattach_frame K s c hc
  refine ⟨h.1, h.2.1, h.2.2.2.1 hclosed, h.2.2.2.2, ?_⟩
  intro d rp wp nr nw
  refine ⟨rfl, ?_, ?_, rfl, rfl⟩
  · simp [sub_attach]
  · simp [sub_attach]

/-- Witness for C3 (amended): `trigger_read` on a closed, attached socket event. -/
theorem C3_no_registration_after_close_except_attach_witness :
    (call sampleConsts ⟨7, some 2, none, true⟩ Call.trigger_read).1.ev_read_ = some 2
      ∧ (call sampleConsts ⟨7, some 2, none, true⟩ Call.trigger_read).1.ev_write_ = none
      ∧ (call sampleConsts ⟨7, some 2, none, true⟩ Call.trigger_read).1.closed_ = true
      ∧ (∀ x ∈ (call sampleConsts ⟨7, some 2, none, true⟩ Call.trigger_read).2,
          x.isEventNew = false) :=
  ⟨(C3_no_registration_after_close_except_attach sampleConsts ⟨7, some 2, none, true⟩
      Call.trigger_read rfl rfl).1,
    (C3_no_registration_after_close_except_attach sampleConsts ⟨7, some 2, none, true⟩
      Call.trigger_read rfl rfl).2.1,
    (C3_no_registration_after_close_except_attach sampleConsts ⟨7, some 2, none, true⟩
      Call.trigger_read rfl rfl).2.2.1,
    (C3_no_registration_after_close_except_attach sampleConsts ⟨7, some 2, none, true⟩
      Call.trigger_read rfl rfl).2.2.2.1⟩

theorem teardown_none_free (K : Consts) (e : Option EventPtr) :
    Effect.event_del none ∉ teardown K e ∧ ∀ res, Effect.event_active none res ∉ teardown K e := by
  cases e <;> simp [teardown]

/-- C4: registration failure in attach is handled locally, per direction.  For every pair of
dispatcher outcomes `new_read`, `new_write` (`none` is a refused registration) `sub_attach`
emits the two allocations, the two registration requests, the deletion of the WeakHandle of
exactly the refused directions and then `on_attached( dispatcher )`: each WeakHandle is
deleted once if its registration was refused and not at all otherwise, `on_attached` is
called exactly once, and the stored registrations are exactly what the dispatcher returned.
After any further calls other than `sub_attach`, a `close_socket( )` emits nothing for a
refused direction: its trace is empty when the close had already taken effect, and
otherwise the OS-level close (for a valid handle) followed by the teardown of the granted
registrations only, with no withdraw and no activation of a null registration. -/
theorem C4_attach_failure_local (K : Consts) (s : pimpl) (d : Nat) (rp wp : HandlePtr)
    (nr nw : Option EventPtr) (cs : List Call) (hne : rp ≠ wp)
    (hcs : ∀ c ∈ cs, c.isAttach = false) :
    (sub_attach K s d rp wp nr nw).2
        = [Effect.new_weak rp, Effect.new_weak wp,
            Effect.event_new s.fd_ K.EV_READ Dir.read rp nr,
            Effect.event_new s.fd_ K.EV_WRITE Dir.write wp nw]
          ++ (if nw = none then [Effect.delete_weak wp] else [])
          ++ (if nr = none then [Effect.delete_weak rp] else [])
          ++ [Effect.on_attached d]
      ∧ (sub_attach K s d rp wp nr nw).2.count (Effect.delete_weak rp)
          = (if nr = none then 1 else 0)
      ∧ (sub_attach K s d rp wp nr nw).2.count (Effect.delete_weak wp)
          = (if nw = none then 1 else 0)
      ∧ ((sub_attach K s d rp wp nr nw).2.filter Effect.isOnAttached)
          = [Effect.on_attached d]
      ∧ (sub_attach K s d rp wp nr nw).1.ev_read_ = nr
      ∧ (sub_attach K s d rp wp nr nw).1.ev_write_ = nw
      ∧ (close_socket K (calls K (sub_attach K s d rp wp nr nw).1 cs).1).2
          = (if (calls K (sub_attach K s d rp wp nr nw).1 cs).1.closed_ = true then []
             else (if s.fd_ ≠ K.invalid_socket then [Effect.closesocket s.fd_] else [])
                    ++ teardown K nr ++ teardown K nw)
      ∧ Effect.event_del none
          ∉ (close_socket K (calls K (sub_attach K s d rp wp nr nw).1 cs).1).2
      ∧ ∀ res, Effect.event_active none res
          ∉ (close_socket K (calls K (sub_attach K s d rp wp nr nw).1 cs).1).2 := by
  have hframe := calls_noattach_frame K cs (sub_attach K s d rp wp nr nw).1 hcs
  have hr : (sub_attach K s d rp wp nr nw).1.ev_read_ = nr := rfl
  have hw : (sub_attach K s d rp wp nr nw).1.ev_write_ = nw := rfl
  have hf : (sub_attach K s d rp wp nr nw).1.fd_ = s.fd_ := rfl
  rw [hr, hw, hf] at hframe
  obtain ⟨h1, h2, h3⟩ := hframe
  have hclose : (close_socket K (calls K (sub_attach K s d rp wp nr nw).1 cs).1).2
      = (if (calls K (sub_attach K s d rp wp nr nw).1 cs).1.closed_ = true then []
         else (if s.fd_ ≠ K.invalid_socket then [Effect.closesocket s.fd_] else [])
                ++ teardown K nr ++ teardown K nw) := by
    cases hcl : (calls K (sub_attach K s d rp wp nr nw).1 cs).1.closed_
    · rw [close_socket_open K _ hcl, h1, h2, h3]
      simp
    · rw [close_socket_closed K _ hcl]
      simp
  have hwp : wp ≠ rp := fun h => hne h.symm
  refine ⟨?_, ?_, ?_, ?_, rfl, rfl, hclose, ?_, ?_⟩
  · cases nr <;> cases nw <;> simp [sub_attach]
  · cases nr <;> cases nw <;> simp [sub_attach, List.count_cons, hne, hwp]
  · cases nr <;> cases nw <;> simp [sub_attach, List.count_cons, hne, hwp]
  · cases nr <;> cases nw <;> simp [sub_attach, List.filter_cons, Effect.isOnAttached]
  · rw [hclose]
    split
    · simp
    · have a := (teardown_none_free K nr).1
      have b := (teardown_none_free K nw).1
      simp only [List.mem_append, not_or]
      refine ⟨⟨?_, a⟩, b⟩
      split <;> simp
  · intro res
    rw [hclose]
    split
    · simp
    · have a := (teardown_none_free K nr).2 res
      have b := (teardown_none_free K nw).2 res
      simp only [List.mem_append, not_or]
      refine ⟨⟨?_, a⟩, b⟩
      split <;> simp

/-- Witness for C4: the dispatcher grants the read registration and refuses the write
registration; `detect_readability` is called before the close. -/
theorem C4_attach_failure_local_witness :
    (sub_attach sampleConsts (construct 7) 0 10 11 (some 2) none).2
        = [Effect.new_weak 10, Effect.new_weak 11,
            Effect.event_new 7 2 Dir.read 10 (some 2), Effect.event_new 7 4 Dir.write 11 none,
            Effect.delete_weak 11, Effect.on_attached 0]
      ∧ (sub_attach sampleConsts (construct 7) 0 10 11 (some 2) none).2.count
            (Effect.delete_weak 10) = 0
      ∧ (sub_attach sampleConsts (construct 7) 0 10 11 (some 2) none).2.count
            (Effect.delete_weak 11) = 1
      ∧ (close_socket sampleConsts
            (calls sampleConsts (sub_attach sampleConsts (construct 7) 0 10 11 (some 2) none).1
              [Call.detect_readability]).1).2
          = [Effect.closesocket 7, Effect.event_del (some 2),
              Effect.event_active (some 2) 4096] := by
  have h := C4_attach_failure_local sampleConsts (construct 7) 0 10 11 (some 2) none
    [Call.detect_readability] (by decide) (by decide)
  refine ⟨?_, ?_, ?_, ?_⟩
  · exact h.1
  · exact h.2.1
  · exact h.2.2.1
  · exact h.2.2.2.2.2.2.1

end SocketEvent

namespace Errno

/-! ## The errno registry -/

theorem find_append (m₁ m₂ : List (Int × errno_thrower)) (key : Int) :
    find (m₁ ++ m₂) key = (find m₁ key).orElse (fun _ => find m₂ key) := by
  induction m₁ with
  | nil => simp [find]
  | cons p rest ih =>
    obtain ⟨k, t⟩ := p
    by_cases h : k = key
    · simp [find, h]
    · simp [find, h, ih]

theorem find_insert (m : List (Int × errno_thrower)) (p : Int × errno_thrower) (key : Int) :
    find (insert m p) key
      = (find m key).orElse (fun _ => if p.1 = key then some p.2 else none) := by
  unfold insert
  cases hp : find m p.1 with
  | some t =>
    simp only
    by_cases h : p.1 = key
    · subst h
      simp [hp]
    · cases find m key <;> simp [h]
  | none =>
    simp only
    rw [find_append]
    obtain ⟨k, t⟩ := p
    by_cases h : k = key <;> simp [find, h]

theorem find_foldl_insert (pairs : List (Int × errno_thrower)) :
    ∀ (m : List (Int × errno_thrower)) (key : Int),
      find (pairs.foldl insert m) key
        = (find m key).orElse (fun _ => first_registered pairs key) := by
  induction pairs with
  | nil =>
    intro m key
    rw [List.foldl_nil]
    cases find m key <;> simp [first_registered]
  | cons p rest ih =>
    intro m key
    rw [List.foldl_cons, ih, find_insert]
    obtain ⟨k, t⟩ := p
    by_cases h : k = key
    · cases find m key <;> simp [first_registered, List.find?_cons, h]
    · cases find m key <;> simp [first_registered, List.find?_cons, h]

theorem register_all_spec (pairs : List (Int × errno_thrower)) :
    ∀ m : errno_map, register_all m pairs = { m with pairs := m.pairs ++ pairs } := by
  induction pairs with
  | nil => intro m; simp [register_all]
  | cons p rest ih =>
    intro m
    obtain ⟨k, t⟩ := p
    simp [register_all, register_errno_handler, ih]

theorem throw_by_errno_eq (strerror_r : Int → String) (m : errno_map) (e : Int) :
    throw_by_errno strerror_r m e
      = Except.error
          (match find m.map e with
           | some t => Exc.specific t.exception
           | none => generic_exception strerror_r e) := by
  unfold throw_by_errno
  cases find m.map e <;> rfl

/-- C10: the errno-to-exception lookup is total and never returns normally.  For every
code `e` and every registry content `m`, `throw_by_errno` throws: the exception of the
handler stored under `e` when the map holds one, and otherwise the generic
`errno_exception` with the message "errno " ++ decimal of `e` ++ ": " ++ OS error text;
`get_exception_by_errno` returns a non-empty exception, the one `throw_by_errno` throws.
The map the initializer builds from the registrations `pairs` (made in that order on a new
registry) resolves every code to the handler registered first under it; and before the
initializer has run, whatever has been registered, every code gets the generic
exception. -/
theorem C10_errno_lookup_total (strerror_r : Int → String) (m : errno_map)
    (pairs : List (Int × errno_thrower)) (e : Int) :
    throw_by_errno strerror_r m e
        = Except.error
            (match find m.map e with
             | some t => Exc.specific t.exception
             | none =>
               Exc.errno_exception ("errno " ++ toString e ++ ": " ++ strerror_r e))
      ∧ (∃ x, get_exception_by_errno strerror_r m e = some x
            ∧ throw_by_errno strerror_r m e = Except.error x)
      ∧ (initializer (register_all errno_map.new pairs)).map
          = pairs.foldl insert []
      ∧ find (initializer (register_all errno_map.new pairs)).map e
          = first_registered pairs e
      ∧ throw_by_errno strerror_r (register_all errno_map.new pairs) e
          = Except.error
              (Exc.errno_exception ("errno " ++ toString e ++ ": " ++ strerror_r e)) := by
  have hreg : register_all errno_map.new pairs = { map := [], pairs := pairs } := by
    rw [register_all_spec]
    simp [errno_map.new]
  refine ⟨throw_by_errno_eq strerror_r m e, ?_, ?_, ?_, ?_⟩
  · refine ⟨_, ?_, throw_by_errno_eq strerror_r m e⟩
    unfold get_exception_by_errno
    rw [throw_by_errno_eq]
  · rw [hreg]
    rfl
  · rw [hreg]
    show find (pairs.foldl insert []) e = first_registered pairs e
    rw [find_foldl_insert]
    simp [find]
  · rw [throw_by_errno_eq, hreg]
    rfl

end Errno

namespace SocketEvent

/-! ## The reactor model: frame lemmas -/

theorem apply_shape (w : World) (x : Effect) :
    w.apply x = w ∨ w.apply x = { w with fault := true }
      ∨ (∃ p b, w.apply x = { w with live := Function.update w.live p b })
      ∨ ∃ e r, w.apply x = w.setEvent e r := by
  cases x with
  | closesocket fd => exact Or.inl rfl
  | new_weak p => exact Or.inr (Or.inr (Or.inl ⟨p, true, rfl⟩))
  | delete_weak p =>
    by_cases h : w.live p = true
    · exact Or.inr (Or.inr (Or.inl ⟨p, false, by simp [World.apply, h]⟩))
    · exact Or.inr (Or.inl (by simp [World.apply, h]))
  | event_new fd ev cb arg res =>
    cases res with
    | none => exact Or.inl rfl
    | some e => exact Or.inr (Or.inr (Or.inr ⟨e, _, rfl⟩))
  | event_add ev =>
    cases ev with
    | none => exact Or.inr (Or.inl rfl)
    | some e =>
      cases h : w.events e with
      | none => exact Or.inr (Or.inl (by simp [World.apply, h]))
      | some r => exact Or.inr (Or.inr (Or.inr ⟨e, _, by simp only [World.apply, h]; rfl⟩))
  | event_del ev =>
    cases ev with
    | none => exact Or.inr (Or.inl rfl)
    | some e =>
      cases h : w.events e with
      | none => exact Or.inr (Or.inl (by simp [World.apply, h]))
      | some r => exact Or.inr (Or.inr (Or.inr ⟨e, _, by simp only [World.apply, h]; rfl⟩))
  | event_active ev res =>
    cases ev with
    | none => exact Or.inr (Or.inl rfl)
    | some e =>
      cases h : w.events e with
      | none => exact Or.inr (Or.inl (by simp [World.apply, h]))
      | some r => exact Or.inr (Or.inr (Or.inr ⟨e, _, by simp only [World.apply, h]; rfl⟩))
  | event_free ev =>
    cases ev with
    | none => exact Or.inr (Or.inl rfl)
    | some e =>
      cases h : w.events e with
      | none => exact Or.inr (Or.inl (by simp [World.apply, h]))
      | some r => exact Or.inr (Or.inr (Or.inr ⟨e, _, by simp only [World.apply, h]; rfl⟩))
  | on_attached d => exact Or.inl rfl
  | on_event_read => exact Or.inl rfl
  | on_event_write => exact Or.inl rfl

theorem apply_obj (w : World) (x : Effect) : (w.apply x).obj = w.obj := by
  rcases apply_shape w x with h | h | ⟨p, b, h⟩ | ⟨e, r, h⟩ <;> (rw [h]; try rfl)

theorem apply_alive (w : World) (x : Effect) : (w.apply x).alive = w.alive := by
  rcases apply_shape w x with h | h | ⟨p, b, h⟩ | ⟨e, r, h⟩ <;> (rw [h]; try rfl)

theorem apply_fault (w : World) (x : Effect) (hf : w.fault = true) :
    (w.apply x).fault = true := by
  rcases apply_shape w x with h | h | ⟨p, b, h⟩ | ⟨e, r, h⟩
  · rw [h]; exact hf
  · rw [h]
  · rw [h]; exact hf
  · rw [h]; exact hf

theorem applyAll_obj (t : List Effect) : ∀ w : World, (w.applyAll t).obj = w.obj := by
  induction t with
  | nil => intro w; rfl
  | cons x rest ih =>
    intro w
    show ((w.apply x).applyAll rest).obj = w.obj
    rw [ih, apply_obj]

theorem applyAll_alive (t : List Effect) : ∀ w : World, (w.applyAll t).alive = w.alive := by
  induction t with
  | nil => intro w; rfl
  | cons x rest ih =>
    intro w
    show ((w.apply x).applyAll rest).alive = w.alive
    rw [ih, apply_alive]

theorem applyAll_fault (t : List Effect) :
    ∀ w : World, w.fault = true → (w.applyAll t).fault = true := by
  induction t with
  | nil => intro w h; exact h
  | cons x rest ih =>
    intro w h
    show ((w.apply x).applyAll rest).fault = true
    exact ih _ (apply_fault w x h)

theorem applyAll_append (w : World) (t₁ t₂ : List Effect) :
    w.applyAll (t₁ ++ t₂) = (w.applyAll t₁).applyAll t₂ := by
  simp [World.applyAll, List.foldl_append]

theorem marker_or (K : Consts) (m res : Nat) (h : m &&& K.LIBQ_EV_CLOSE ≠ 0) :
    (m ||| res) &&& K.LIBQ_EV_CLOSE ≠ 0 := by
  obtain ⟨i, hi⟩ := Nat.ne_zero_implies_bit_true h
  intro h0
  have hbit : ((m ||| res) &&& K.LIBQ_EV_CLOSE).testBit i = true := by
    rw [Nat.testBit_and] at hi ⊢
    rw [Nat.testBit_or]
    simp only [Bool.and_eq_true] at hi ⊢
    exact ⟨by simp [hi.1], hi.2⟩
  rw [h0] at hbit
  simp at hbit

theorem hasMarker_merge (K : Consts) (old : Option Nat) (res : Nat)
    (h : HasMarker K old) : HasMarker K (some (mergeFlags old res)) := by
  obtain ⟨m, rfl, hm⟩ := h
  exact ⟨m ||| res, rfl, marker_or K m res hm⟩

/-! ## The reactor model: what single effects do to the invariants -/

theorem setEvent_events (w : World) (e : EventPtr) (r : Option EventRec) (e' : EventPtr) :
    (w.setEvent e r).events e' = if e' = e then r else w.events e' := by
  simp [World.setEvent, Function.update_apply]

theorem setEvent_setEvent (w : World) (e : EventPtr) (r₁ r₂ : Option EventRec) :
    (w.setEvent e r₁).setEvent e r₂ = w.setEvent e r₂ := by
  simp [World.setEvent]

theorem empty_noOrphan (w : World) (h : Empty w) : NoOrphan w := by
  intro e r hr
  rw [h e] at hr
  cases hr

theorem empty_marked (K : Consts) (w : World) (h : Empty w) : Marked K w := by
  intro _ e r hr
  rw [h e] at hr
  cases hr

theorem noOrphan_setEvent (w : World) (e : EventPtr) (r₀ : EventRec) (r' : Option EventRec)
    (h : NoOrphan w) (he : w.events e = some r₀) : NoOrphan (w.setEvent e r') := by
  intro e' r hr
  rw [setEvent_events] at hr
  by_cases hee : e' = e
  · subst hee
    exact h e' r₀ he
  · rw [if_neg hee] at hr
    exact h e' r hr

theorem marked_setEvent (K : Consts) (w : World) (e : EventPtr) (r' : EventRec)
    (h : Marked K w)
    (hr' : w.obj.closed_ = true → w.live r'.arg = true → HasMarker K r'.active) :
    Marked K (w.setEvent e (some r')) := by
  intro hc e' r hr hl
  rw [setEvent_events] at hr
  by_cases hee : e' = e
  · rw [if_pos hee] at hr
    cases hr
    exact hr' hc hl
  · rw [if_neg hee] at hr
    exact h hc e' r hr hl

theorem teardown_apply (K : Consts) (w : World) (e : EventPtr) :
    (w.applyAll (teardown K (some e))).fault = true
      ∨ ∃ r, w.events e = some r
          ∧ w.applyAll (teardown K (some e))
              = w.setEvent e (some { r with pending := false, active := some K.LIBQ_EV_CLOSE }) := by
  cases h : w.events e with
  | none =>
    left
    simp [teardown, World.applyAll, World.apply, h]
  | some r =>
    right
    refine ⟨r, rfl, ?_⟩
    simp [teardown, World.applyAll, World.apply, h, setEvent_events, setEvent_setEvent,
      mergeFlags]

theorem release_apply (w : World) (e : EventPtr) :
    (w.applyAll (release (some e))).fault = true
      ∨ ∃ r, w.events e = some r ∧ w.applyAll (release (some e)) = w.setEvent e none := by
  cases h : w.events e with
  | none =>
    left
    simp [release, World.applyAll, World.apply, h]
  | some r =>
    right
    exact ⟨r, rfl, by simp [release, World.applyAll, World.apply, h]⟩

/-- The events in `S` whose callback context is still allocated carry the closed marker. -/
theorem teardown_seals (K : Consts) (hK : K.LIBQ_EV_CLOSE ≠ 0) (w : World) (S : List (Option EventPtr))
    (p : Option EventPtr) (hno : NoOrphan w)
    (hs : ∀ e r, w.events e = some r → some e ∈ S → w.live r.arg = true →
      HasMarker K r.active) :
    (w.applyAll (teardown K p)).fault = true
      ∨ (NoOrphan (w.applyAll (teardown K p))
          ∧ ∀ e r, (w.applyAll (teardown K p)).events e = some r → some e ∈ p :: S →
              (w.applyAll (teardown K p)).live r.arg = true → HasMarker K r.active) := by
  cases p with
  | none =>
    right
    refine ⟨hno, ?_⟩
    intro e r hr hmem hl
    have hmem' : some e ∈ S := by simpa using hmem
    exact hs e r hr hmem' hl
  | some a =>
    rcases teardown_apply K w a with hf | ⟨r₀, hr₀, heq⟩
    · exact Or.inl hf
    · right
      rw [heq]
      refine ⟨noOrphan_setEvent w a r₀ _ hno hr₀, ?_⟩
      intro e r hr hmem hl
      rw [setEvent_events] at hr
      by_cases hea : e = a
      · rw [if_pos hea] at hr
        cases hr
        exact ⟨K.LIBQ_EV_CLOSE, rfl, by simpa using hK⟩
      · rw [if_neg hea] at hr
        have hmem' : some e ∈ S := by
          rcases List.mem_cons.mp hmem with h1 | h1
          · exact absurd (Option.some.inj h1) hea
          · exact h1
        exact hs e r hr hmem' hl

theorem close_trace_good (K : Consts) (hK : K.LIBQ_EV_CLOSE ≠ 0) (w : World)
    (hno : NoOrphan w) (hopen : w.obj.closed_ = false) :
    (({ w with obj := (close_socket K w.obj).1 } : World).applyAll
        (close_socket K w.obj).2).fault = true
      ∨ (NoOrphan (({ w with obj := (close_socket K w.obj).1 } : World).applyAll
            (close_socket K w.obj).2)
          ∧ Marked K (({ w with obj := (close_socket K w.obj).1 } : World).applyAll
              (close_socket K w.obj).2)) := by
  rw [close_socket_open K w.obj hopen]
  simp only
  generalize hw0 : ({ w with obj := { w.obj with closed_ := true } } : World) = w0
  have hno0 : NoOrphan w0 := by
    subst hw0
    exact fun e r hr => hno e r hr
  have hrd : w0.obj.ev_read_ = w.obj.ev_read_ := by subst hw0; rfl
  have hwr : w0.obj.ev_write_ = w.obj.ev_write_ := by subst hw0; rfl
  have hfd : w0.applyAll
      (if w.obj.fd_ ≠ K.invalid_socket then [Effect.closesocket w.obj.fd_] else []) = w0 := by
    split <;> rfl
  rw [applyAll_append, applyAll_append, hfd]
  rcases teardown_seals K hK w0 [] w.obj.ev_read_ hno0
      (fun e r _ hmem _ => absurd hmem (List.not_mem_nil _)) with hf | ⟨hno1, hs1⟩
  · exact Or.inl (applyAll_fault _ _ hf)
  · rcases teardown_seals K hK _ [w.obj.ev_read_] w.obj.ev_write_ hno1 hs1 with hf | ⟨hno2, hs2⟩
    · exact Or.inl hf
    · right
      refine ⟨hno2, ?_⟩
      intro _ e r hr hl
      have hobj : ((w0.applyAll (teardown K w.obj.ev_read_)).applyAll
          (teardown K w.obj.ev_write_)).obj = w0.obj := by
        rw [applyAll_obj, applyAll_obj]
      have hmem : some e ∈ [w.obj.ev_write_, w.obj.ev_read_] := by
        rcases hno2 e r hr with h1 | h1
        · rw [hobj, hrd] at h1
          simp [h1]
        · rw [hobj, hwr] at h1
          simp [h1]
      exact hs2 e r hr hmem hl

theorem release_all_empty (w : World) (hno : NoOrphan w) :
    (w.applyAll (release w.obj.ev_read_ ++ release w.obj.ev_write_)).fault = true
      ∨ Empty (w.applyAll (release w.obj.ev_read_ ++ release w.obj.ev_write_)) := by
  rw [applyAll_append]
  cases hrd : w.obj.ev_read_ with
  | none =>
    cases hwr : w.obj.ev_write_ with
    | none =>
      right
      intro e
      cases he : w.events e with
      | none => exact he
      | some r =>
        rcases hno e r he with h | h
        · rw [hrd] at h; cases h
        · rw [hwr] at h; cases h
    | some b =>
      have h0 : w.applyAll (release none) = w := rfl
      rw [h0]
      rcases release_apply w b with hf | ⟨r₀, _, heq⟩
      · exact Or.inl hf
      · right
        rw [heq]
        intro e
        rw [setEvent_events]
        by_cases heb : e = b
        · rw [if_pos heb]
        · rw [if_neg heb]
          cases he : w.events e with
          | none => rfl
          | some r =>
            rcases hno e r he with h | h
            · rw [hrd] at h; cases h
            · rw [hwr] at h; exact absurd (Option.some.inj h).symm heb
  | some a =>
    rcases release_apply w a with hf | ⟨r₀, _, heq⟩
    · exact Or.inl (applyAll_fault _ _ hf)
    · rw [heq]
      have hrest : ∀ e, e ≠ a → ∀ r, w.events e = some r → w.obj.ev_write_ = some e := by
        intro e hea r he
        rcases hno e r he with h | h
        · rw [hrd] at h; exact absurd (Option.some.inj h).symm hea
        · exact h
      cases hwr : w.obj.ev_write_ with
      | none =>
        right
        show Empty (w.setEvent a none)
        intro e
        rw [setEvent_events]
        by_cases hea : e = a
        · rw [if_pos hea]
        · rw [if_neg hea]
          cases he : w.events e with
          | none => rfl
          | some r =>
            have := hrest e hea r he
            rw [hwr] at this
            cases this
      | some b =>
        rcases release_apply (w.setEvent a none) b with hf | ⟨r₁, _, heq1⟩
        · exact Or.inl hf
        · right
          rw [heq1]
          intro e
          rw [setEvent_events]
          by_cases heb : e = b
          · rw [if_pos heb]
          · rw [if_neg heb, setEvent_events]
            by_cases hea : e = a
            · rw [if_pos hea]
            · rw [if_neg hea]
              cases he : w.events e with
              | none => rfl
              | some r =>
                have := hrest e hea r he
                rw [hwr] at this
                exact absurd (Option.some.inj this).symm heb

/-! ## The reactor model: steps keep the invariant -/

theorem inv_of_empty (K : Consts) (allowed : Bool) (w : World) (h : Empty w)
    (ha : w.alive = true → w.obj.closed_ = false) : Inv K allowed w := by
  right
  cases allowed
  · exact ⟨empty_noOrphan w h, empty_marked K w h⟩
  · exact ⟨h, ha⟩

theorem inv_to_false (K : Consts) (allowed : Bool) (w : World) (h : Inv K allowed w) :
    Inv K false w := by
  rcases h with hf | h
  · exact Or.inl hf
  · cases allowed
    · exact Or.inr h
    · exact Or.inr ⟨empty_noOrphan w h.1, empty_marked K w h.1⟩

theorem inv_noOrphan (K : Consts) (allowed : Bool) (w : World) (h : Inv K allowed w)
    (hf : w.fault = false) : NoOrphan w := by
  rcases inv_to_false K allowed w h with h' | h'
  · rw [hf] at h'; cases h'
  · exact h'.1

theorem discipline_tail (allowed : Bool) (o : Op) (os : List Op)
    (h : attachDiscipline allowed (o :: os) = true) :
    attachDiscipline (nextAllowed allowed o) os = true := by
  cases o <;> simp_all [attachDiscipline, nextAllowed]

theorem discipline_attach (allowed : Bool) (d : Nat) (okR okW : Bool) (os : List Op)
    (h : attachDiscipline allowed (Op.attach d okR okW :: os) = true) : allowed = true := by
  simp_all [attachDiscipline]

theorem apply_event_add_inv (K : Consts) (allowed : Bool) (w : World) (p : Option EventPtr)
    (h : Inv K allowed w) : Inv K allowed (w.apply (Effect.event_add p)) := by
  rcases h with hf | h
  · exact Or.inl (apply_fault w _ hf)
  · cases p with
    | none => exact Or.inl rfl
    | some e =>
      cases he : w.events e with
      | none => exact Or.inl (by simp [World.apply, he])
      | some r =>
        have heq : w.apply (Effect.event_add (some e))
            = w.setEvent e (some { r with pending := true }) := by
          simp only [World.apply, he]
        rw [heq]
        cases allowed
        · exact Or.inr ⟨noOrphan_setEvent w e r _ h.1 he,
            marked_setEvent K w e _ h.2 (fun hc hl => h.2 hc e r he hl)⟩
        · rw [h.1 e] at he
          cases he

theorem apply_event_active_inv (K : Consts) (allowed : Bool) (w : World)
    (p : Option EventPtr) (res : Nat) (h : Inv K allowed w) :
    Inv K allowed (w.apply (Effect.event_active p res)) := by
  rcases h with hf | h
  · exact Or.inl (apply_fault w _ hf)
  · cases p with
    | none => exact Or.inl rfl
    | some e =>
      cases he : w.events e with
      | none => exact Or.inl (by simp [World.apply, he])
      | some r =>
        have heq : w.apply (Effect.event_active (some e) res)
            = w.setEvent e (some { r with active := some (mergeFlags r.active res) }) := by
          simp only [World.apply, he]
        rw [heq]
        cases allowed
        · exact Or.inr ⟨noOrphan_setEvent w e r _ h.1 he,
            marked_setEvent K w e _ h.2
              (fun hc hl => hasMarker_merge K r.active res (h.2 hc e r he hl))⟩
        · rw [h.1 e] at he
          cases he

theorem close_step_inv (K : Consts) (hK : K.LIBQ_EV_CLOSE ≠ 0) (allowed : Bool) (w : World)
    (h : Inv K allowed w) :
    Inv K false (w.commit (close_socket K w.obj)).1 := by
  by_cases hf : w.fault = true
  · exact Or.inl (applyAll_fault _ _ hf)
  · have hf' : w.fault = false := by simpa using hf
    cases hc : w.obj.closed_ with
    | true =>
      rw [close_socket_closed K w.obj hc]
      exact inv_to_false K allowed w h
    | false =>
      exact close_trace_good K hK w (inv_noOrphan K allowed w h hf') hc

theorem destroy_step_empty (K : Consts) (hK : K.LIBQ_EV_CLOSE ≠ 0) (allowed : Bool)
    (w : World) (h : Inv K allowed w) (hf : w.fault = false) :
    ((({ w with alive := false } : World).commit (destroy_socket_event K w.obj)).1).fault = true
      ∨ Empty ((({ w with alive := false } : World).commit (destroy_socket_event K w.obj)).1) := by
  have hno : NoOrphan w := inv_noOrphan K allowed w h hf
  generalize hw0 : ({ w with alive := false } : World) = w0
  have hobj : w0.obj = w.obj := by subst hw0; rfl
  have hno0 : NoOrphan w0 := by
    subst hw0
    exact fun e r hr => hno e r hr
  rw [← hobj]
  show (({ w0 with obj := (destroy_socket_event K w0.obj).1 } : World).applyAll
          (destroy_socket_event K w0.obj).2).fault = true
      ∨ Empty (({ w0 with obj := (destroy_socket_event K w0.obj).1 } : World).applyAll
          (destroy_socket_event K w0.obj).2)
  rw [destroy_eq]
  simp only
  rw [List.append_assoc, applyAll_append]
  cases hc : w0.obj.closed_ with
  | true =>
    rw [close_socket_closed K w0.obj hc]
    exact release_all_empty w0 hno0
  | false =>
    rcases close_trace_good K hK w0 hno0 hc with hf1 | ⟨hno1, _⟩
    · exact Or.inl (applyAll_fault _ _ hf1)
    · have hregs : (({ w0 with obj := (close_socket K w0.obj).1 } : World).applyAll
          (close_socket K w0.obj).2).obj.ev_read_ = w0.obj.ev_read_
          ∧ (({ w0 with obj := (close_socket K w0.obj).1 } : World).applyAll
          (close_socket K w0.obj).2).obj.ev_write_ = w0.obj.ev_write_ := by
        rw [applyAll_obj, close_socket_open K w0.obj hc]
        exact ⟨rfl, rfl⟩
      have := release_all_empty _ hno1
      rw [hregs.1, hregs.2] at this
      exact this

theorem apply_alloc (w : World) (x : Effect) (e : EventPtr) (r : EventRec)
    (h : (w.apply x).events e = some r) :
    (∃ r₀, w.events e = some r₀)
      ∨ ∃ fd ev cb arg, x = Effect.event_new fd ev cb arg (some e) := by
  have hset : ∀ (e' : EventPtr) (r' : Option EventRec) (r₀ : EventRec),
      w.events e' = some r₀ → (w.setEvent e' r').events e = some r →
      ∃ r₁, w.events e = some r₁ := by
    intro e' r' r₀ h0 h1
    rw [setEvent_events] at h1
    by_cases hee : e = e'
    · exact ⟨r₀, hee ▸ h0⟩
    · rw [if_neg hee] at h1
      exact ⟨r, h1⟩
  cases x with
  | closesocket fd => exact Or.inl ⟨r, h⟩
  | new_weak p => exact Or.inl ⟨r, h⟩
  | delete_weak p =>
    left
    by_cases hl : w.live p = true
    · simp only [World.apply, hl, if_true] at h
      exact ⟨r, h⟩
    · simp only [World.apply, hl] at h
      exact ⟨r, h⟩
  | event_new fd ev cb arg res =>
    cases res with
    | none => exact Or.inl ⟨r, h⟩
    | some e' =>
      by_cases hee : e = e'
      · subst hee
        exact Or.inr ⟨fd, ev, cb, arg, rfl⟩
      · left
        simp only [World.apply] at h
        rw [setEvent_events, if_neg hee] at h
        exact ⟨r, h⟩
  | event_add p =>
    left
    cases p with
    | none => exact ⟨r, h⟩
    | some e' =>
      cases he : w.events e' with
      | none =>
        simp only [World.apply, he] at h
        exact ⟨r, h⟩
      | some r₀ =>
        simp only [World.apply, he] at h
        exact hset e' _ r₀ he h
  | event_del p =>
    left
    cases p with
    | none => exact ⟨r, h⟩
    | some e' =>
      cases he : w.events e' with
      | none =>
        simp only [World.apply, he] at h
        exact ⟨r, h⟩
      | some r₀ =>
        simp only [World.apply, he] at h
        exact hset e' _ r₀ he h
  | event_active p res =>
    left
    cases p with
    | none => exact ⟨r, h⟩
    | some e' =>
      cases he : w.events e' with
      | none =>
        simp only [World.apply, he] at h
        exact ⟨r, h⟩
      | some r₀ =>
        simp only [World.apply, he] at h
        exact hset e' _ r₀ he h
  | event_free p =>
    left
    cases p with
    | none => exact ⟨r, h⟩
    | some e' =>
      cases he : w.events e' with
      | none =>
        simp only [World.apply, he] at h
        exact ⟨r, h⟩
      | some r₀ =>
        simp only [World.apply, he] at h
        exact hset e' _ r₀ he h
  | on_attached d => exact Or.inl ⟨r, h⟩
  | on_event_read => exact Or.inl ⟨r, h⟩
  | on_event_write => exact Or.inl ⟨r, h⟩

theorem applyAll_alloc (t : List Effect) :
    ∀ (w : World) (e : EventPtr) (r : EventRec), (w.applyAll t).events e = some r →
      (∃ r₀, w.events e = some r₀)
        ∨ ∃ fd ev cb arg, Effect.event_new fd ev cb arg (some e) ∈ t := by
  induction t with
  | nil => intro w e r h; exact Or.inl ⟨r, h⟩
  | cons x rest ih =>
    intro w e r h
    have h' : ((w.apply x).applyAll rest).events e = some r := h
    rcases ih _ e r h' with ⟨r₁, h1⟩ | ⟨fd, ev, cb, arg, hmem⟩
    · rcases apply_alloc w x e r₁ h1 with h2 | ⟨fd, ev, cb, arg, hx⟩
      · exact Or.inl h2
      · exact Or.inr ⟨fd, ev, cb, arg, hx ▸ List.mem_cons_self _ _⟩
    · exact Or.inr ⟨fd, ev, cb, arg, List.mem_cons_of_mem _ hmem⟩

theorem attach_step_inv (K : Consts) (w : World) (d : Nat) (nr nw : Option EventPtr)
    (rp wp : HandlePtr) (n : Nat) (hempty : Empty w) (hopen : w.obj.closed_ = false) :
    Inv K false
      ((({ w with next := n } : World).commit (sub_attach K w.obj d rp wp nr nw)).1) := by
  right
  generalize hw' : (({ w with next := n } : World).commit
      (sub_attach K w.obj d rp wp nr nw)).1 = w'
  have hobj : w'.obj = (sub_attach K w.obj d rp wp nr nw).1 := by
    subst hw'
    exact applyAll_obj _ _
  constructor
  · intro e r hr
    subst hw'
    rcases applyAll_alloc _ _ e r hr with ⟨r₀, h0⟩ | ⟨fd, ev, cb, arg, hmem⟩
    · have : w.events e = some r₀ := h0
      rw [hempty e] at this
      cases this
    · rw [hobj]
      have hmem' : Effect.event_new fd ev cb arg (some e)
          ∈ (sub_attach K w.obj d rp wp nr nw).2 := hmem
      cases nr <;> cases nw <;> simp [sub_attach] at hmem' ⊢ <;> tauto
  · intro hc
    rw [hobj] at hc
    have : (sub_attach K w.obj d rp wp nr nw).1.closed_ = w.obj.closed_ := rfl
    rw [this, hopen] at hc
    cases hc

theorem ready_step_inv (K : Consts) (allowed : Bool) (w : World) (e : EventPtr)
    (h : Inv K allowed w) (hf : w.fault = false) :
    Inv K allowed (step K w (Op.ready e)).1 ∧ (step K w (Op.ready e)).2 = [] := by
  cases he : w.events e with
  | none =>
    have : step K w (Op.ready e) = (w, []) := by simp [step, hf, he]
    rw [this]
    exact ⟨h, rfl⟩
  | some r =>
    cases hp : r.pending with
    | false =>
      have : step K w (Op.ready e) = (w, []) := by simp [step, hf, he, hp]
      rw [this]
      exact ⟨h, rfl⟩
    | true =>
      have : step K w (Op.ready e)
          = (w.setEvent e (some { r with active := some (mergeFlags r.active r.interest) }),
              []) := by
        simp [step, hf, he, hp]
      rw [this]
      refine ⟨?_, rfl⟩
      rcases h with hf' | h
      · rw [hf] at hf'; cases hf'
      · cases allowed
        · exact Or.inr ⟨noOrphan_setEvent w e r _ h.1 he,
            marked_setEvent K w e _ h.2
              (fun hc hl => hasMarker_merge K r.active r.interest (h.2 hc e r he hl))⟩
        · rw [h.1 e] at he
          cases he

theorem callback_marker (K : Consts) (cb : Dir) (m : Nat) (arg : HandlePtr) (self : Bool)
    (hm : m &&& K.LIBQ_EV_CLOSE ≠ 0) :
    (match cb with
      | Dir.read => fn_read K m arg self
      | Dir.write => fn_write K m arg self) = [Effect.delete_weak arg] := by
  cases cb <;> simp [fn_read, fn_write, hm]

theorem callback_real (K : Consts) (cb : Dir) (m : Nat) (arg : HandlePtr) (self : Bool)
    (hm : m &&& K.LIBQ_EV_CLOSE = 0) (w : World) :
    w.applyAll (match cb with
      | Dir.read => fn_read K m arg self
      | Dir.write => fn_write K m arg self) = w := by
  cases cb <;> cases self <;> simp [fn_read, fn_write, hm, World.applyAll, World.apply]

theorem deliver_step_inv (K : Consts) (allowed : Bool) (w : World) (e : EventPtr)
    (h : Inv K allowed w) (hf : w.fault = false) :
    Inv K allowed (step K w (Op.deliver e)).1
      ∧ (w.obj.closed_ = true → ∀ x ∈ (step K w (Op.deliver e)).2, x.isHook = false) := by
  cases he : w.events e with
  | none =>
    have : step K w (Op.deliver e) = (w, []) := by simp [step, hf, he]
    rw [this]
    exact ⟨h, fun _ x hx => absurd hx (List.not_mem_nil _)⟩
  | some r =>
    cases ha : r.active with
    | none =>
      have : step K w (Op.deliver e) = (w, []) := by simp [step, hf, he, ha]
      rw [this]
      exact ⟨h, fun _ x hx => absurd hx (List.not_mem_nil _)⟩
    | some m =>
      rcases h with hf' | h
      · rw [hf] at hf'; cases hf'
      cases allowed with
      | true =>
        rw [h.1 e] at he
        cases he
      | false =>
        obtain ⟨hno, hmk⟩ := h
        by_cases hl : w.live r.arg = true
        · have hstep : step K w (Op.deliver e)
              = ((w.setEvent e (some { r with pending := false, active := none })).applyAll
                  (match r.cb with
                    | Dir.read => fn_read K m r.arg w.alive
                    | Dir.write => fn_write K m r.arg w.alive),
                 (match r.cb with
                    | Dir.read => fn_read K m r.arg w.alive
                    | Dir.write => fn_write K m r.arg w.alive)) := by
            simp [step, hf, he, ha, hl]
          rw [hstep]
          by_cases hm : m &&& K.LIBQ_EV_CLOSE = 0
          · have hopen : w.obj.closed_ = false := by
              cases hc : w.obj.closed_ with
              | false => rfl
              | true =>
                obtain ⟨m', hm1, hm2⟩ := hmk hc e r he hl
                rw [ha] at hm1
                cases hm1
                exact absurd hm hm2
            rw [callback_real K r.cb m r.arg w.alive hm]
            refine ⟨Or.inr ⟨noOrphan_setEvent w e r _ hno he, ?_⟩, ?_⟩
            · intro hc
              have : w.obj.closed_ = true := hc
              rw [hopen] at this
              cases this
            · intro hc
              rw [hopen] at hc
              cases hc
          · rw [callback_marker K r.cb m r.arg w.alive hm]
            refine ⟨?_, ?_⟩
            · have happ : (w.setEvent e (some { r with pending := false, active := none })).applyAll
                  [Effect.delete_weak r.arg]
                  = { (w.setEvent e (some { r with pending := false, active := none })) with
                      live := Function.update w.live r.arg false } := by
                have hl1 : (w.setEvent e
                    (some { r with pending := false, active := none })).live r.arg = true := hl
                simp [World.applyAll, World.apply, hl1]
                rfl
              rw [happ]
              right
              constructor
              · exact fun e' r' hr' =>
                  noOrphan_setEvent w e r _ hno he e' r' hr'
              · intro hc e' r' hr' hl'
                have hr1 : (w.setEvent e
                    (some { r with pending := false, active := none })).events e' = some r' := hr'
                have hl1 : Function.update w.live r.arg false r'.arg = true := hl'
                have hne : r'.arg ≠ r.arg := by
                  intro heq
                  rw [heq, Function.update_same] at hl1
                  cases hl1
                rw [Function.update_noteq hne] at hl1
                rw [setEvent_events] at hr1
                by_cases hee : e' = e
                · rw [if_pos hee] at hr1
                  cases hr1
                  exact absurd rfl hne
                · rw [if_neg hee] at hr1
                  exact hmk hc e' r' hr1 hl1
            · intro _ x hx
              rw [List.mem_singleton] at hx
              subst hx
              rfl
        · have hstep : step K w (Op.deliver e)
              = ({ (w.setEvent e (some { r with pending := false, active := none })) with
                    fault := true }, []) := by
            simp [step, hf, he, ha, hl]
          rw [hstep]
          exact ⟨Or.inl rfl, fun _ x hx => absurd hx (List.not_mem_nil _)⟩

theorem step_fault (K : Consts) (w : World) (o : Op) (hf : w.fault = true) :
    step K w o = (w, []) := by
  simp [step, hf]

theorem step_obj_reactor (K : Consts) (w : World) (e : EventPtr) :
    (step K w (Op.ready e)).1.obj = w.obj ∧ (step K w (Op.deliver e)).1.obj = w.obj := by
  by_cases hf : w.fault = true
  · rw [step_fault K w _ hf, step_fault K w _ hf]
    exact ⟨rfl, rfl⟩
  · have hf' : w.fault = false := by simpa using hf
    constructor
    · cases he : w.events e with
      | none => simp [step, hf', he]
      | some r => cases hp : r.pending <;> simp [step, hf', he, hp, World.setEvent]
    · cases he : w.events e with
      | none => simp [step, hf', he]
      | some r =>
        cases ha : r.active with
        | none => simp [step, hf', he, ha]
        | some m =>
          by_cases hl : w.live r.arg = true
          · simp [step, hf', he, ha, hl, applyAll_obj, World.setEvent]
          · simp [step, hf', he, ha, hl, World.setEvent]

theorem commit_obj (w : World) (r : pimpl × List Effect) : (w.commit r).1.obj = r.1 :=
  applyAll_obj _ _

theorem step_closed (K : Consts) (w : World) (o : Op) (hc : w.obj.closed_ = true) :
    (step K w o).1.obj.closed_ = true := by
  by_cases hf : w.fault = true
  · rw [step_fault K w _ hf]; exact hc
  · have hf' : w.fault = false := by simpa using hf
    cases o with
    | attach d okR okW =>
      cases ha : w.alive with
      | false => simp [step, hf', ha, hc]
      | true =>
        simp only [step, hf', ha, if_true, Bool.false_eq_true, if_false]
        rw [commit_obj]
        exact hc
    | detect_readability =>
      cases ha : w.alive with
      | false => simp [step, hf', ha, hc]
      | true =>
        simp only [step, hf', ha, if_true, Bool.false_eq_true, if_false]
        rw [commit_obj]
        exact hc
    | detect_writability =>
      cases ha : w.alive with
      | false => simp [step, hf', ha, hc]
      | true =>
        simp only [step, hf', ha, if_true, Bool.false_eq_true, if_false]
        rw [commit_obj]
        exact hc
    | trigger_read =>
      cases ha : w.alive with
      | false => simp [step, hf', ha, hc]
      | true =>
        simp only [step, hf', ha, if_true, Bool.false_eq_true, if_false]
        rw [commit_obj]
        exact hc
    | trigger_write =>
      cases ha : w.alive with
      | false => simp [step, hf', ha, hc]
      | true =>
        simp only [step, hf', ha, if_true, Bool.false_eq_true, if_false]
        rw [commit_obj]
        exact hc
    | close_socket =>
      cases ha : w.alive with
      | false => simp [step, hf', ha, hc]
      | true =>
        simp only [step, hf', ha, if_true, Bool.false_eq_true, if_false]
        rw [commit_obj, close_socket_closed K w.obj hc]
        exact hc
    | destroy =>
      cases ha : w.alive with
      | false => simp [step, hf', ha, hc]
      | true =>
        simp only [step, hf', ha, if_true, Bool.false_eq_true, if_false]
        rw [commit_obj, destroy_eq, close_socket_closed K w.obj hc]
        exact hc
    | ready e => rw [(step_obj_reactor K w e).1]; exact hc
    | deliver e => rw [(step_obj_reactor K w e).2]; exact hc

/-! ## Runs -/

theorem step_inv (K : Consts) (hK : K.LIBQ_EV_CLOSE ≠ 0) (allowed : Bool) (w : World) (o : Op)
    (os : List Op) (h : Inv K allowed w) (hd : attachDiscipline allowed (o :: os) = true) :
    Inv K (nextAllowed allowed o) (step K w o).1 := by
  by_cases hf : w.fault = true
  · rw [step_fault K w _ hf]
    exact Or.inl hf
  · have hf' : w.fault = false := by simpa using hf
    cases o with
    | attach d okR okW =>
      have hallowed := discipline_attach allowed d okR okW os hd
      subst hallowed
      cases ha : w.alive with
      | false =>
        have : step K w (Op.attach d okR okW) = (w, []) := by simp [step, hf', ha]
        rw [this]
        exact inv_to_false K true w h
      | true =>
        have hstep : step K w (Op.attach d okR okW)
            = ({ w with next := w.next + 4 } : World).commit
                (sub_attach K w.obj d w.next (w.next + 1)
                  (if okR then some (w.next + 2) else none)
                  (if okW then some (w.next + 3) else none)) := by
          simp [step, hf', ha]
        rw [hstep]
        rcases h with hf'' | h
        · rw [hf'] at hf''; cases hf''
        · exact attach_step_inv K w d _ _ _ _ _ h.1 (h.2 ha)
    | detect_readability =>
      cases ha : w.alive with
      | false =>
        have : step K w Op.detect_readability = (w, []) := by simp [step, hf', ha]
        rw [this]; exact h
      | true =>
        have : step K w Op.detect_readability = w.commit (detect_readability w.obj) := by
          simp [step, hf', ha]
        rw [this]
        exact apply_event_add_inv K allowed w _ h
    | detect_writability =>
      cases ha : w.alive with
      | false =>
        have : step K w Op.detect_writability = (w, []) := by simp [step, hf', ha]
        rw [this]; exact h
      | true =>
        have : step K w Op.detect_writability = w.commit (detect_writability w.obj) := by
          simp [step, hf', ha]
        rw [this]
        exact apply_event_add_inv K allowed w _ h
    | trigger_read =>
      cases ha : w.alive with
      | false =>
        have : step K w Op.trigger_read = (w, []) := by simp [step, hf', ha]
        rw [this]; exact h
      | true =>
        have : step K w Op.trigger_read = w.commit (trigger_read K w.obj) := by
          simp [step, hf', ha]
        rw [this]
        exact apply_event_active_inv K allowed w _ _ h
    | trigger_write =>
      cases ha : w.alive with
      | false =>
        have : step K w Op.trigger_write = (w, []) := by simp [step, hf', ha]
        rw [this]; exact h
      | true =>
        have : step K w Op.trigger_write = w.commit (trigger_write K w.obj) := by
          simp [step, hf', ha]
        rw [this]
        exact apply_event_active_inv K allowed w _ _ h
    | close_socket =>
      cases ha : w.alive with
      | false =>
        have : step K w Op.close_socket = (w, []) := by simp [step, hf', ha]
        rw [this]
        exact inv_to_false K allowed w h
      | true =>
        have : step K w Op.close_socket = w.commit (close_socket K w.obj) := by
          simp [step, hf', ha]
        rw [this]
        exact close_step_inv K hK allowed w h
    | destroy =>
      cases ha : w.alive with
      | false =>
        have : step K w Op.destroy = (w, []) := by simp [step, hf', ha]
        rw [this]; exact h
      | true =>
        have hstep : step K w Op.destroy
            = ({ w with alive := false } : World).commit (destroy_socket_event K w.obj) := by
          simp [step, hf', ha]
        rw [hstep]
        rcases destroy_step_empty K hK allowed w h hf' with hfl | hem
        · exact Or.inl hfl
        · refine inv_of_empty K _ _ hem ?_
          intro halive
          have hdead : ((({ w with alive := false } : World).commit
              (destroy_socket_event K w.obj)).1).alive = false := applyAll_alive _ _
          rw [hdead] at halive
          cases halive
    | ready e => exact (ready_step_inv K allowed w e h hf').1
    | deliver e => exact (deliver_step_inv K allowed w e h hf').1

theorem release_no_hook (e : Option EventPtr) : ∀ x ∈ release e, x.isHook = false := by
  cases e <;> simp [release, Effect.isHook]

theorem step_no_hook (K : Consts) (allowed : Bool) (w : World) (o : Op)
    (h : Inv K allowed w) (hc : w.obj.closed_ = true) :
    ∀ x ∈ (step K w o).2, x.isHook = false := by
  by_cases hf : w.fault = true
  · rw [step_fault K w _ hf]
    exact fun x hx => absurd hx (List.not_mem_nil _)
  · have hf' : w.fault = false := by simpa using hf
    cases o with
    | attach d okR okW =>
      cases ha : w.alive <;> cases okR <;> cases okW <;>
        simp [step, hf', ha, World.commit, sub_attach, Effect.isHook]
    | detect_readability =>
      cases ha : w.alive <;>
        simp [step, hf', ha, World.commit, detect_readability, Effect.isHook]
    | detect_writability =>
      cases ha : w.alive <;>
        simp [step, hf', ha, World.commit, detect_writability, Effect.isHook]
    | trigger_read =>
      cases ha : w.alive <;>
        simp [step, hf', ha, World.commit, trigger_read, Effect.isHook]
    | trigger_write =>
      cases ha : w.alive <;>
        simp [step, hf', ha, World.commit, trigger_write, Effect.isHook]
    | close_socket =>
      cases ha : w.alive <;>
        simp [step, hf', ha, World.commit, close_socket_closed K w.obj hc]
    | destroy =>
      cases ha : w.alive with
      | false => simp [step, hf', ha]
      | true =>
        have hstep : (step K w Op.destroy).2 = (destroy_socket_event K w.obj).2 := by
          simp [step, hf', ha, World.commit]
        rw [hstep, destroy_eq, close_socket_closed K w.obj hc]
        intro x hx
        simp only [List.nil_append, List.mem_append] at hx
        rcases hx with hx | hx
        · exact release_no_hook _ x hx
        · exact release_no_hook _ x hx
    | ready e =>
      rw [(ready_step_inv K allowed w e h hf').2]
      exact fun x hx => absurd hx (List.not_mem_nil _)
    | deliver e => exact (deliver_step_inv K allowed w e h hf').2 hc

theorem run_append (K : Consts) (ops₁ : List Op) :
    ∀ (w : World) (ops₂ : List Op),
      run K w (ops₁ ++ ops₂)
        = ((run K (run K w ops₁).1 ops₂).1, (run K w ops₁).2 ++ (run K (run K w ops₁).1 ops₂).2) := by
  induction ops₁ with
  | nil => intro w ops₂; simp [run]
  | cons o os ih =>
    intro w ops₂
    have h1 : run K w (o :: os ++ ops₂)
        = ((run K (step K w o).1 (os ++ ops₂)).1,
            (step K w o).2 ++ (run K (step K w o).1 (os ++ ops₂)).2) := rfl
    have h2 : run K w (o :: os)
        = ((run K (step K w o).1 os).1, (step K w o).2 ++ (run K (step K w o).1 os).2) := rfl
    rw [h1, ih, h2]
    simp only [List.append_assoc]

theorem run_inv (K : Consts) (hK : K.LIBQ_EV_CLOSE ≠ 0) (ops₁ : List Op) :
    ∀ (allowed : Bool) (w : World) (ops₂ : List Op), Inv K allowed w →
      attachDiscipline allowed (ops₁ ++ ops₂) = true →
      ∃ allowed', Inv K allowed' (run K w ops₁).1 ∧ attachDiscipline allowed' ops₂ = true := by
  induction ops₁ with
  | nil => intro allowed w ops₂ h hd; exact ⟨allowed, h, hd⟩
  | cons o os ih =>
    intro allowed w ops₂ h hd
    have hd' : attachDiscipline allowed (o :: (os ++ ops₂)) = true := hd
    exact ih (nextAllowed allowed o) (step K w o).1 ops₂
      (step_inv K hK allowed w o _ h hd') (discipline_tail allowed o _ hd')

theorem run_no_hook (K : Consts) (hK : K.LIBQ_EV_CLOSE ≠ 0) (ops : List Op) :
    ∀ (allowed : Bool) (w : World), Inv K allowed w → w.obj.closed_ = true →
      attachDiscipline allowed ops = true →
      ∀ x ∈ (run K w ops).2, x.isHook = false := by
  induction ops with
  | nil => intro allowed w _ _ _ x hx; exact absurd hx (List.not_mem_nil _)
  | cons o os ih =>
    intro allowed w h hc hd x hx
    have hx' : x ∈ (step K w o).2 ++ (run K (step K w o).1 os).2 := hx
    rcases List.mem_append.mp hx' with h1 | h1
    · exact step_no_hook K allowed w o h hc x h1
    · exact ih (nextAllowed allowed o) (step K w o).1 (step_inv K hK allowed w o _ h hd)
        (step_closed K w o hc) (discipline_tail allowed o _ hd) x h1

theorem inv_init (K : Consts) (sock : socket_t) : Inv K true (World.init sock) :=
  Or.inr ⟨fun _ => rfl, fun _ => rfl⟩

/-- C2, refuted as stated: a socket event on fd 7 is closed before it is attached, so the
closed flag is true; `sub_attach`, which does not look at the flag, then registers both
directions, `trigger_read` activates the read registration with `EV_READ`, and the reactor
delivering that activation invokes `on_event_read`, without any fault. -/
theorem C2_counterexample_hook_after_close :
    (run sampleConsts (World.init 7) [Op.close_socket]).1.obj.closed_ = true
      ∧ Effect.on_event_read
          ∈ (run sampleConsts (run sampleConsts (World.init 7) [Op.close_socket]).1
              [Op.attach 0 true true, Op.trigger_read, Op.deliver 2]).2
      ∧ (run sampleConsts (run sampleConsts (World.init 7) [Op.close_socket]).1
              [Op.attach 0 true true, Op.trigger_read, Op.deliver 2]).1.fault = false := by
  decide

/-- C2, amended: in every run from construction that keeps the life cycle's attach
discipline (`attach` at most once and never after a `close_socket`), once the closed flag
is true no later step of the run (detect, trigger, close, destruction, readiness reported
by the backend, delivery by the reactor) invokes `on_event_read` or `on_event_write`, up to
the first use of an already deleted WeakHandle, where the model stops.  The closed marker
must be a non-zero mask. -/
theorem C2_no_hook_after_close_with_attach_discipline (K : Consts) (sock : socket_t)
    (pre post : List Op) (hK : K.LIBQ_EV_CLOSE ≠ 0)
    (hd : attachDiscipline true (pre ++ post) = true)
    (hclosed : (run K (World.init sock) pre).1.obj.closed_ = true) :
    ∀ x ∈ (run K (run K (World.init sock) pre).1 post).2, x.isHook = false := by
  obtain ⟨allowed', hinv, hd'⟩ :=
    run_inv K hK pre true (World.init sock) post (inv_init K sock) hd
  exact run_no_hook K hK post allowed' _ hinv hclosed hd'

/-- Witness for C2 (amended): attach, arm, a real read delivery, close; then a trigger, the
two closed-marker deliveries and another trigger.  The run keeps the attach discipline,
the closed flag is true after its first part, and no effect of its second part is a hook. -/
theorem C2_no_hook_after_close_with_attach_discipline_witness :
    attachDiscipline true
        ([Op.attach 0 true true, Op.detect_readability, Op.ready 2, Op.deliver 2,
            Op.close_socket]
          ++ [Op.trigger_read, Op.deliver 2, Op.deliver 3, Op.trigger_write]) = true
      ∧ (run sampleConsts (World.init 7)
          [Op.attach 0 true true, Op.detect_readability, Op.ready 2, Op.deliver 2,
            Op.close_socket]).1.obj.closed_ = true
      ∧ ((run sampleConsts
            (run sampleConsts (World.init 7)
              [Op.attach 0 true true, Op.detect_readability, Op.ready 2, Op.deliver 2,
                Op.close_socket]).1
            [Op.trigger_read, Op.deliver 2, Op.deliver 3, Op.trigger_write]).2.all
          (fun x => !x.isHook)) = true :=
  ⟨by decide, by decide,
    List.all_eq_true.mpr (fun x hx => by
      rw [C2_no_hook_after_close_with_attach_discipline sampleConsts 7
        [Op.attach 0 true true, Op.detect_readability, Op.ready 2, Op.deliver 2,
          Op.close_socket]
        [Op.trigger_read, Op.deliver 2, Op.deliver 3, Op.trigger_write]
        (by decide) (by decide) (by decide) x hx]
      rfl)⟩

/-! ## Destruction without a preceding close -/

theorem deliver_empty (K : Consts) (es : List EventPtr) :
    ∀ w : World, Empty w → run K w (es.map Op.deliver) = (w, []) := by
  induction es with
  | nil => intro w _; rfl
  | cons e rest ih =>
    intro w hw
    have hstep : step K w (Op.deliver e) = (w, []) := by
      by_cases hf : w.fault = true
      · exact step_fault K w _ hf
      · have hf' : w.fault = false := by simpa using hf
        simp [step, hf', hw e]
    have hrun : run K w ((e :: rest).map Op.deliver)
        = ((run K (step K w (Op.deliver e)).1 (rest.map Op.deliver)).1,
            (step K w (Op.deliver e)).2
              ++ (run K (step K w (Op.deliver e)).1 (rest.map Op.deliver)).2) := rfl
    rw [hrun, hstep, ih w hw]
    rfl

/-- C7, evaluated at the failing input: a socket event on fd 7 is constructed, attached
with both registrations granted, and destroyed without `close_socket( )` having been
called.  The destructor runs the close protocol (withdraw and closed-marker activation of
both registrations) and then frees both registrations, so the reactor is left with no event
at all; whatever it delivers afterwards, neither WeakHandle (addresses 0 and 1) is ever
deleted, and both are still allocated. -/
theorem C7_weak_handles_leak_on_destruction (es : List EventPtr) :
    (run sampleConsts (World.init 7) [Op.attach 0 true true, Op.destroy]).2
        = [Effect.new_weak 0, Effect.new_weak 1,
            Effect.event_new 7 2 Dir.read 0 (some 2), Effect.event_new 7 4 Dir.write 1 (some 3),
            Effect.on_attached 0,
            Effect.closesocket 7,
            Effect.event_del (some 2), Effect.event_active (some 2) 4096,
            Effect.event_del (some 3), Effect.event_active (some 3) 4096,
            Effect.event_free (some 2), Effect.event_free (some 3)]
      ∧ (run sampleConsts (World.init 7) [Op.attach 0 true true, Op.destroy]).1.fault = false
      ∧ Empty (run sampleConsts (World.init 7) [Op.attach 0 true true, Op.destroy]).1
      ∧ (run sampleConsts (World.init 7)
            ([Op.attach 0 true true, Op.destroy] ++ es.map Op.deliver)).2.count
          (Effect.delete_weak 0) = 0
      ∧ (run sampleConsts (World.init 7)
            ([Op.attach 0 true true, Op.destroy] ++ es.map Op.deliver)).2.count
          (Effect.delete_weak 1) = 0
      ∧ (run sampleConsts (World.init 7)
            ([Op.attach 0 true true, Op.destroy] ++ es.map Op.deliver)).1.live 0 = true
      ∧ (run sampleConsts (World.init 7)
            ([Op.attach 0 true true, Op.destroy] ++ es.map Op.deliver)).1.live 1 = true := by
  have htrace : (run sampleConsts (World.init 7) [Op.attach 0 true true, Op.destroy]).2
        = [Effect.new_weak 0, Effect.new_weak 1,
            Effect.event_new 7 2 Dir.read 0 (some 2), Effect.event_new 7 4 Dir.write 1 (some 3),
            Effect.on_attached 0,
            Effect.closesocket 7,
            Effect.event_del (some 2), Effect.event_active (some 2) 4096,
            Effect.event_del (some 3), Effect.event_active (some 3) 4096,
            Effect.event_free (some 2), Effect.event_free (some 3)] := by decide
  have hfault : (run sampleConsts (World.init 7)
      [Op.attach 0 true true, Op.destroy]).1.fault = false := by decide
  have hempty : Empty (run sampleConsts (World.init 7)
      [Op.attach 0 true true, Op.destroy]).1 := by
    obtain ⟨a, hinv, -⟩ := run_inv sampleConsts (by decide) [Op.attach 0 true true] true
      (World.init 7) [Op.destroy] (inv_init _ 7) (by decide)
    have hf1 : (run sampleConsts (World.init 7) [Op.attach 0 true true]).1.fault = false := by
      decide
    have halive : (run sampleConsts (World.init 7) [Op.attach 0 true true]).1.alive = true := by
      decide
    rcases destroy_step_empty sampleConsts (by decide) a _ hinv hf1 with h | h
    · have hstep : (run sampleConsts (World.init 7) [Op.attach 0 true true, Op.destroy]).1
          = (({ (run sampleConsts (World.init 7) [Op.attach 0 true true]).1 with
                alive := false } : World).commit
              (destroy_socket_event sampleConsts
                (run sampleConsts (World.init 7) [Op.attach 0 true true]).1.obj)).1 := by
        rfl
      rw [← hstep, hfault] at h
      cases h
    · exact h
  refine ⟨htrace, hfault, hempty, ?_, ?_, ?_, ?_⟩
  · rw [run_append, deliver_empty _ _ _ hempty, htrace]
    decide
  · rw [run_append, deliver_empty _ _ _ hempty, htrace]
    decide
  · rw [run_append, deliver_empty _ _ _ hempty]
    decide
  · rw [run_append, deliver_empty _ _ _ hempty]
    decide

end SocketEvent
